import Mathlib

/-!
# Pizza ordering demo: classic REST server and HATEOAS server

A shallow embedding of `src/pizza-hateoas/index.js` and `src/pizza-rest/index.js`.

* The global `orders` Map is an insertion-ordered association list that is passed
  in and returned explicitly.
* `setTimeout` appends a pending callback to the `timers` field of the server state;
  running a pending callback is an explicit step.
* `uuidv4()` and `new Date()` are inputs of the create handler.
* Values read from the JSON request body are `JSVal`s.
-/

namespace PizzaDemo

/-! ## JavaScript values found in a parsed JSON body -/

/-- A value of a JSON request body field after `bodyParser.json()`. A finite number is
a rational (every finite double is one, and `-0` behaves as `0` in every test used
here); `posInf`/`negInf` arise from overflowing literals such as `1e999`. `object`
stands for any array or object: the handlers only test it for truthiness, integrality
and strict equality with a number. -/
inductive JSVal where
  | undefined
  | null
  | bool (b : Bool)
  | num (q : Rat)
  | posInf
  | negInf
  | str (s : String)
  | object
  deriving DecidableEq

namespace JSVal

/-- JavaScript `ToBoolean`. -/
def truthy : JSVal → Bool
  | undefined => false
  | null => false
  | bool b => b
  | num q => decide (q ≠ 0)
  | posInf => true
  | negInf => true
  | str s => decide (s ≠ "")
  | object => true

/-- `Number.isInteger(v)`. -/
def isInteger : JSVal → Bool
  | num q => q.isInt
  | _ => false

/-- `v <= 0`, evaluated in the source only after `Number.isInteger(v)` held, hence on
a finite number; the remaining number cases are given for completeness. -/
def leZero : JSVal → Bool
  | num q => decide (q ≤ 0)
  | negInf => true
  | _ => false

/-- `n === v` for a number `n` that is a natural number. -/
def strictEqNat (n : Nat) : JSVal → Bool
  | num q => decide ((n : Rat) = q)
  | _ => false

end JSVal

/-! ## Data -/

structure Pizza where
  id : Nat
  name : String
  price : Nat
  deriving DecidableEq, Repr

/-- The seeded `pizzas` array (identical in both servers). -/
def pizzas : List Pizza :=
  [ { id := 1, name := "Margherita", price := 8 },
    { id := 2, name := "Pepperoni", price := 10 },
    { id := 3, name := "Quatre Fromages", price := 12 },
    { id := 4, name := "Végétarienne", price := 11 } ]

/-- An order record as built by the create handlers. -/
structure Order where
  orderId : String
  pizzaId : JSVal
  pizzaName : String
  quantity : JSVal
  status : String
  createdAt : Nat
  deriving DecidableEq

/-- The `orders` Map: keys in insertion order. -/
abbrev Orders := List (String × Order)

namespace Orders

/-- `orders.has(k)`. -/
def has (m : Orders) (k : String) : Bool :=
  (m.lookup k).isSome

/-- `orders.get(k)`. -/
def get (m : Orders) (k : String) : Option Order :=
  m.lookup k

/-- `orders.set(k, v)`: replaces the value of an existing key in place, otherwise
appends the entry. -/
def set : Orders → String → Order → Orders
  | [], k, v => [(k, v)]
  | (k', v') :: rest, k, v =>
      if k' = k then (k, v) :: rest else (k', v') :: set rest k v

/-- `orders.get(k).status = st` for a key that is present: the record is mutated in
place. A missing key leaves the map as it is. -/
def setStatus : Orders → String → String → Orders
  | [], _, _ => []
  | (k', v') :: rest, k, st =>
      if k' = k then (k', { v' with status := st }) :: rest
      else (k', v') :: setStatus rest k st

/-- The status of the order stored under `k`, if any. -/
def statusOf (m : Orders) (k : String) : Option String :=
  (m.lookup k).map (fun o => o.status)

end Orders

/-- A callback registered with `setTimeout`: it acts on `orderId`, assigns `target`,
and was registered with `delay` milliseconds. -/
structure Timer where
  delay : Nat
  orderId : String
  target : String
  deriving DecidableEq, Repr

/-- Server state: the order store and the callbacks still waiting to run. -/
structure State where
  orders : Orders
  timers : List Timer
  deriving DecidableEq

/-- What `getFullUrl` reads from the request and the process environment. -/
structure Req where
  nodeEnv : Option String
  host : Option String
  forwardedProto : Option String
  protocol : String
  deriving DecidableEq, Repr

structure Link where
  rel : String
  href : String
  method : String
  description : String
  deriving DecidableEq, Repr

/-- The relation names of a link list, in order. -/
def rels (ls : List Link) : List String :=
  ls.map (fun l => l.rel)

/-- JavaScript template interpolation of a header value: an absent header is the
value `undefined` and prints as such. -/
def showHeader : Option String → String
  | some s => s
  | none => "undefined"

/-- Truthiness of a header value returned by `req.get`. -/
def headerTruthy : Option String → Bool
  | some s => decide (s ≠ "")
  | none => false

/-! ## The HATEOAS server (`src/pizza-hateoas/index.js`) -/

namespace Hateoas

def PORT : Nat := 3001

/-- `getFullUrl(req, path)`. -/
def getFullUrl (req : Req) (path : String) : String :=
  let hostHeader := req.host
  let isProduction : Bool :=
    decide (req.nodeEnv = some "production") ||
      decide (hostHeader ≠ some ("localhost:" ++ toString PORT))
  if isProduction then
    let protocol :=
      if headerTruthy req.forwardedProto then showHeader req.forwardedProto
      else if req.protocol ≠ "" then req.protocol
      else "https"
    protocol ++ "://" ++ showHeader req.host ++ path
  else
    "http://localhost:" ++ toString PORT ++ path

/-- The `order` object of a response body; `quantity` and `createdAt` are present
only in some responses. -/
structure OrderView where
  orderId : String
  pizzaName : String
  quantity : Option JSVal
  status : String
  createdAt : Option Nat
  deriving DecidableEq

/-- A JSON response body: `{ error, links }`, `{ order, links }`, `{ message, links }`
(entry point) or `{ pizzas, links }` (menu). -/
inductive Body where
  | error (msg : String) (links : List Link)
  | order (o : OrderView) (links : List Link)
  | message (msg : String) (links : List Link)
  | menu (pizzas : List Pizza) (links : List Link)
  deriving DecidableEq

/-- The `links` array of a body. -/
def Body.links : Body → List Link
  | .error _ ls => ls
  | .order _ ls => ls
  | .message _ ls => ls
  | .menu _ ls => ls

/-- The `order.status` field of a body, when the body has an `order`. -/
def Body.orderStatus : Body → Option String
  | .order o _ => some o.status
  | _ => none

/-- The `order.orderId` field of a body, when the body has an `order`. -/
def Body.orderId : Body → Option String
  | .order o _ => some o.orderId
  | _ => none

structure Response where
  status : Nat
  body : Body
  deriving DecidableEq

def menuLink (req : Req) : Link :=
  { rel := "menu", href := getFullUrl req "/v1/menu", method := "GET",
    description := "Revenir au menu" }

/-- Handler of `GET /v1/start`, the entry point. It does not read or write the store. -/
def getStart (req : Req) : Response :=
  { status := 200,
    body := .message "Bienvenue sur l'API HATEOAS Pizza"
      [ { rel := "menu", href := getFullUrl req "/v1/menu", method := "GET",
          description := "Afficher le menu des pizzas disponibles" } ] }

/-- Handler of `GET /v1/menu`. It does not read or write the store. -/
def getMenu (req : Req) : Response :=
  { status := 200,
    body := .menu pizzas
      [ { rel := "self", href := getFullUrl req "/v1/menu", method := "GET",
          description := "Recharger le menu" },
        { rel := "order", href := getFullUrl req "/v1/order", method := "POST",
          description := "Commander une pizza" },
        { rel := "start", href := getFullUrl req "/v1/start", method := "GET",
          description := "Revenir à la page d'accueil" } ] }

/-- A progression callback body:
`if (orders.has(orderId) && orders.get(orderId).status !== "cancelled") orders.get(orderId).status = target`. -/
def progress (orders : Orders) (orderId target : String) : Orders :=
  match orders.get orderId with
  | some o => if o.status ≠ "cancelled" then orders.setStatus orderId target else orders
  | none => orders

/-- The three callbacks registered by the create handler, in registration order. -/
def scheduled (orderId : String) : List Timer :=
  [ { delay := 10000, orderId := orderId, target := "preparing" },
    { delay := 20000, orderId := orderId, target := "baking" },
    { delay := 30000, orderId := orderId, target := "ready" } ]

/-- Handler of `POST /v1/order`. `newId` is the value `uuidv4()` returns and `now` the
value of `new Date()`, should the handler get that far. -/
def postOrder (req : Req) (pizzaId quantity : JSVal) (newId : String) (now : Nat)
    (s : State) : Response × State :=
  if !pizzaId.truthy || !quantity.truthy || !quantity.isInteger || quantity.leZero then
    ({ status := 400, body := .error "pizzaId et quantity sont requis" [menuLink req] }, s)
  else
    match pizzas.find? (fun p => JSVal.strictEqNat p.id pizzaId) with
    | none =>
      ({ status := 404, body := .error "Pizza non trouvée" [menuLink req] }, s)
    | some pizza =>
      let order : Order :=
        { orderId := newId, pizzaId := pizzaId, pizzaName := pizza.name,
          quantity := quantity, status := "pending", createdAt := now }
      let s' : State :=
        { orders := s.orders.set newId order, timers := s.timers ++ scheduled newId }
      ({ status := 201,
         body := .order
           { orderId := newId, pizzaName := pizza.name, quantity := some quantity,
             status := order.status, createdAt := none }
           [ { rel := "self", href := getFullUrl req "/v1/order", method := "POST",
               description := "Passer une nouvelle commande" },
             { rel := "track", href := getFullUrl req ("/v1/track/" ++ newId),
               method := "GET", description := "Suivre cette commande" },
             { rel := "cancel", href := getFullUrl req ("/v1/order/" ++ newId ++ "/cancel"),
               method := "DELETE", description := "Annuler cette commande" },
             menuLink req ] }, s')

/-- Handler of `GET /v1/track/:orderId`. -/
def getTrack (req : Req) (orderId : String) (s : State) : Response × State :=
  if !s.orders.has orderId then
    ({ status := 404, body := .error "Commande non trouvée" [menuLink req] }, s)
  else
    match s.orders.get orderId with
    | none => ({ status := 404, body := .error "Commande non trouvée" [menuLink req] }, s)
    | some order =>
      let links : List Link :=
        [ { rel := "self", href := getFullUrl req ("/v1/track/" ++ orderId),
            method := "GET", description := "Rafraîchir les informations de suivi" },
          menuLink req ]
      let links :=
        if !(["ready", "delivered", "cancelled"].contains order.status) then
          links ++ [ { rel := "cancel",
                       href := getFullUrl req ("/v1/order/" ++ orderId ++ "/cancel"),
                       method := "DELETE", description := "Annuler cette commande" } ]
        else links
      ({ status := 200,
         body := .order
           { orderId := order.orderId, pizzaName := order.pizzaName,
             quantity := some order.quantity, status := order.status,
             createdAt := some order.createdAt } links }, s)

/-- Handler of `DELETE /v1/order/:orderId/cancel`. -/
def deleteCancel (req : Req) (orderId : String) (s : State) : Response × State :=
  if !s.orders.has orderId then
    ({ status := 404, body := .error "Commande non trouvée" [menuLink req] }, s)
  else
    match s.orders.get orderId with
    | none => ({ status := 404, body := .error "Commande non trouvée" [menuLink req] }, s)
    | some order =>
      if ["ready", "delivered"].contains order.status then
        ({ status := 400,
           body := .error "La commande ne peut plus être annulée"
             [ { rel := "track", href := getFullUrl req ("/v1/track/" ++ orderId),
                 method := "GET", description := "Suivre cette commande" },
               menuLink req ] }, s)
      else
        let order' : Order := { order with status := "cancelled" }
        ({ status := 200,
           body := .order
             { orderId := order'.orderId, pizzaName := order'.pizzaName, quantity := none,
               status := order'.status, createdAt := none }
             [ menuLink req,
               { rel := "order", href := getFullUrl req "/v1/order", method := "POST",
                 description := "Passer une nouvelle commande" } ] },
         { s with orders := s.orders.setStatus orderId "cancelled" })

end Hateoas

/-! ## The classic REST server (`src/pizza-rest/index.js`) -/

namespace Rest

/-- A JSON response body: either `{ error }` or `{ orderId, status }`. -/
inductive Body where
  | error (msg : String)
  | order (orderId : String) (status : String)
  deriving DecidableEq

structure Response where
  status : Nat
  body : Body
  deriving DecidableEq

/-- A progression callback body:
`if (orders.has(orderId) && orders.get(orderId).status !== "cancelled") orders.get(orderId).status = target`. -/
def progress (orders : Orders) (orderId target : String) : Orders :=
  match orders.get orderId with
  | some o => if o.status ≠ "cancelled" then orders.setStatus orderId target else orders
  | none => orders

/-- The three callbacks registered by the create handler, in registration order. -/
def scheduled (orderId : String) : List Timer :=
  [ { delay := 10000, orderId := orderId, target := "preparing" },
    { delay := 20000, orderId := orderId, target := "baking" },
    { delay := 30000, orderId := orderId, target := "ready" } ]

/-- Handler of `POST /v1/order`. `newId` is the value `uuidv4()` returns and `now` the
value of `new Date()`, should the handler get that far. -/
def postOrder (pizzaId quantity : JSVal) (newId : String) (now : Nat)
    (s : State) : Response × State :=
  if !pizzaId.truthy || !quantity.truthy || !quantity.isInteger || quantity.leZero then
    ({ status := 400, body := .error "pizzaId et quantity sont requis" }, s)
  else
    match pizzas.find? (fun p => JSVal.strictEqNat p.id pizzaId) with
    | none => ({ status := 404, body := .error "Pizza non trouvée" }, s)
    | some pizza =>
      let order : Order :=
        { orderId := newId, pizzaId := pizzaId, pizzaName := pizza.name,
          quantity := quantity, status := "pending", createdAt := now }
      let s' : State :=
        { orders := s.orders.set newId order, timers := s.timers ++ scheduled newId }
      ({ status := 201, body := .order newId order.status }, s')

/-- Handler of `GET /v1/track/:orderId`. -/
def getTrack (orderId : String) (s : State) : Response × State :=
  if !s.orders.has orderId then
    ({ status := 404, body := .error "Commande non trouvée" }, s)
  else
    match s.orders.get orderId with
    | none => ({ status := 404, body := .error "Commande non trouvée" }, s)
    | some order => ({ status := 200, body := .order orderId order.status }, s)

/-- Handler of `DELETE /v1/order/:orderId`. -/
def deleteOrder (orderId : String) (s : State) : Response × State :=
  if !s.orders.has orderId then
    ({ status := 404, body := .error "Commande non trouvée" }, s)
  else
    match s.orders.get orderId with
    | none => ({ status := 404, body := .error "Commande non trouvée" }, s)
    | some order =>
      if ["ready", "delivered"].contains order.status then
        ({ status := 400, body := .error "La commande ne peut plus être annulée" }, s)
      else
        let order' : Order := { order with status := "cancelled" }
        ({ status := 200, body := .order orderId order'.status },
         { s with orders := s.orders.setStatus orderId "cancelled" })

end Rest

/-! ## Executions: callbacks interleaved with track and cancel requests -/

/-- What can happen to a running server after orders were created: a pending callback
runs, or a track or cancel request arrives. -/
inductive Event where
  | fire (t : Timer)
  | track (req : Req) (orderId : String)
  | cancel (req : Req) (orderId : String)
  deriving DecidableEq

/-- A pending callback may run now if it is pending and no pending callback of the
same order has a smaller delay (the callbacks of one order are registered at the same
instant, so they run in delay order). -/
def canFire (s : State) (t : Timer) : Bool :=
  decide (t ∈ s.timers) &&
    s.timers.all (fun u => decide (u.orderId = t.orderId → t.delay ≤ u.delay))

namespace Hateoas

/-- The effect of one event on the HATEOAS server. A callback that runs is no longer
pending. -/
def exec (s : State) : Event → State
  | .fire t => { orders := progress s.orders t.orderId t.target, timers := s.timers.erase t }
  | .track req orderId => (getTrack req orderId s).2
  | .cancel req orderId => (deleteCancel req orderId s).2

/-- The states a run visits, the starting state first. -/
def trace (s : State) : List Event → List State
  | [] => [s]
  | e :: es => s :: trace (exec s e) es

/-- The state a run ends in. -/
def run (s : State) (es : List Event) : State :=
  es.foldl exec s

end Hateoas

namespace Rest

/-- The effect of one event on the classic server (the request data of an event is
not used by the classic handlers). -/
def exec (s : State) : Event → State
  | .fire t => { orders := progress s.orders t.orderId t.target, timers := s.timers.erase t }
  | .track _ orderId => (getTrack orderId s).2
  | .cancel _ orderId => (deleteOrder orderId s).2

/-- The state a run ends in. -/
def run (s : State) (es : List Event) : State :=
  es.foldl exec s

end Rest

/-- Every callback that runs in `es`, started in `s`, runs in delay order. -/
def inDelayOrder (s : State) : List Event → Bool
  | [] => true
  | .fire t :: es => canFire s t && inDelayOrder (Hateoas.exec s (.fire t)) es
  | e :: es => inDelayOrder (Hateoas.exec s e) es

/-- The status changes the lifecycle permits. -/
def allowedChanges : List (String × String) :=
  [ ("pending", "preparing"), ("preparing", "baking"), ("baking", "ready"),
    ("pending", "cancelled"), ("preparing", "cancelled"), ("baking", "cancelled") ]

/-- The statuses after which no change is permitted. -/
def finalStatuses : List String := ["ready", "delivered", "cancelled"]

/-- Between two consecutive states the order `orderId` is stored in both, its status
is unchanged or changes by an allowed change, and a final status does not change. -/
def LegalStep (orderId : String) (a b : State) : Prop :=
  ∃ x y, a.orders.statusOf orderId = some x ∧ b.orders.statusOf orderId = some y ∧
    (x = y ∨ (x, y) ∈ allowedChanges) ∧ (x ∈ finalStatuses → y = x)

/-- The relation, method and target of each link, in order. -/
def linkTargets (ls : List Link) : List (String × String × String) :=
  ls.map (fun l => (l.rel, l.method, l.href))

/-- The pending callbacks that act on `orderId`, in registration order. -/
def pendingFor (s : State) (orderId : String) : List Timer :=
  s.timers.filter (fun t => decide (t.orderId = orderId))

/-- The lifecycle invariant of one order: it is stored, and either it is cancelled, or
its status and its pending callbacks are at the same point of the progression. -/
def Lifecycle (orderId : String) (s : State) : Prop :=
  ∃ st, s.orders.statusOf orderId = some st ∧
    (st = "cancelled" ∨
     (st = "pending" ∧ pendingFor s orderId = Hateoas.scheduled orderId) ∨
     (st = "preparing" ∧ pendingFor s orderId = (Hateoas.scheduled orderId).drop 1) ∨
     (st = "baking" ∧ pendingFor s orderId = (Hateoas.scheduled orderId).drop 2) ∨
     (st = "ready" ∧ pendingFor s orderId = []))

/-! ## Sample inputs -/

/-- A request to the local development server. -/
def sampleReq : Req :=
  { nodeEnv := none, host := some "localhost:3001", forwardedProto := none, protocol := "http" }

/-- An order for two Margherita with the given status. -/
def sampleOrder (status : String) : Order :=
  { orderId := "o1", pizzaId := .num 1, pizzaName := "Margherita", quantity := .num 2,
    status := status, createdAt := 0 }

/-- A server holding the sample order, with no callback pending. -/
def sampleState (status : String) : State :=
  { orders := [("o1", sampleOrder status)], timers := [] }

/-- A server holding no order. -/
def emptyState : State :=
  { orders := [], timers := [] }

/-- A run on a freshly created order `o2`: it is tracked, its first two callbacks run,
it is cancelled, and then its last callback runs. -/
def sampleRun : List Event :=
  [ .track sampleReq "o2",
    .fire { delay := 10000, orderId := "o2", target := "preparing" },
    .fire { delay := 20000, orderId := "o2", target := "baking" },
    .cancel sampleReq "o2",
    .fire { delay := 30000, orderId := "o2", target := "ready" } ]

/-! ## Requests to either server, and the states a server can reach -/

/-- The three operations both servers offer on orders, with their inputs. For `create`,
`newId` and `now` are what `uuidv4()` and `new Date()` return. -/
inductive Op where
  | create (pizzaId quantity : JSVal) (newId : String) (now : Nat)
  | track (orderId : String)
  | cancel (orderId : String)
  deriving DecidableEq

/-- The HATEOAS handler of an operation. -/
def Hateoas.handle (req : Req) (op : Op) (s : State) : Hateoas.Response × State :=
  match op with
  | .create pizzaId quantity newId now => Hateoas.postOrder req pizzaId quantity newId now s
  | .track orderId => Hateoas.getTrack req orderId s
  | .cancel orderId => Hateoas.deleteCancel req orderId s

/-- The classic handler of an operation. -/
def Rest.handle (op : Op) (s : State) : Rest.Response × State :=
  match op with
  | .create pizzaId quantity newId now => Rest.postOrder pizzaId quantity newId now s
  | .track orderId => Rest.getTrack orderId s
  | .cancel orderId => Rest.deleteOrder orderId s

/-- The `orderId` field of a classic body, when it has one. -/
def Rest.Body.orderId : Rest.Body → Option String
  | .order orderId _ => some orderId
  | .error _ => none

/-- The `status` field of a classic body, when it has one. -/
def Rest.Body.orderStatus : Rest.Body → Option String
  | .order _ status => some status
  | .error _ => none

/-- What happens to a server during its life: a request is handled, or a pending
callback runs. -/
inductive Action where
  | request (req : Req) (op : Op)
  | fire (t : Timer)
  deriving DecidableEq

/-- The effect of an action on the HATEOAS server. -/
def Hateoas.act (s : State) : Action → State
  | .request req op => (Hateoas.handle req op s).2
  | .fire t =>
      { orders := Hateoas.progress s.orders t.orderId t.target, timers := s.timers.erase t }

/-- The effect of an action on the classic server. -/
def Rest.act (s : State) : Action → State
  | .request _ op => (Rest.handle op s).2
  | .fire t =>
      { orders := Rest.progress s.orders t.orderId t.target, timers := s.timers.erase t }

/-- The state of the HATEOAS server after the given actions, from the empty store it
starts with. -/
def Hateoas.reach (as : List Action) : State :=
  as.foldl Hateoas.act emptyState

/-- The state of the classic server after the given actions, from the empty store it
starts with. -/
def Rest.reach (as : List Action) : State :=
  as.foldl Rest.act emptyState

/-- Every record is stored under its own `orderId`. -/
def WellKeyed (m : Orders) : Prop :=
  ∀ k o, m.get k = some o → o.orderId = k

/-- The protocol of a generated URL as the specification words it: the
`x-forwarded-proto` header if set (present with a non-empty value), else `req.protocol`
(if non-empty), else `https`. -/
def protocolBySpec (req : Req) : String :=
  match req.forwardedProto with
  | some h => if h ≠ "" then h else if req.protocol ≠ "" then req.protocol else "https"
  | none => if req.protocol ≠ "" then req.protocol else "https"

/-- The URL for a path as the specification words it: `http://localhost:3001` followed
by the path when `NODE_ENV` is not `production` and the Host header is exactly
`localhost:3001`; otherwise protocol, `://`, the Host header (an absent header prints
as `undefined`) and the path. -/
def urlBySpec (req : Req) (path : String) : String :=
  if req.nodeEnv ≠ some "production" ∧ req.host = some "localhost:3001" then
    "http://localhost:3001" ++ path
  else
    protocolBySpec req ++ "://" ++ showHeader req.host ++ path

/-! ## The HATEOAS client (`src/client-hateoas/app.js`) -/

namespace Client

/-- A link object of a response body as the client reads it; `none` is an absent
`method` or `description`. -/
structure RawLink where
  rel : String
  href : String
  method : Option String
  description : Option String
  deriving DecidableEq, Repr

/-- The `links` field of a response body as `saveLinks` tests it: falsy (missing,
`null`), truthy but not an array, or an array of link objects. -/
inductive LinksField where
  | falsy
  | notArray
  | array (ls : List RawLink)
  deriving DecidableEq

/-- A value of the `availableLinks` object. -/
structure StoredLink where
  href : String
  method : String
  description : String
  deriving DecidableEq, Repr

/-- Own properties of an object whose values are stored links, in insertion order. -/
abbrev LinkTable := List (String × StoredLink)

/-- Assignment of an own property: the value of an existing key is replaced in place,
a new key is appended. -/
def LinkTable.assign : LinkTable → String → StoredLink → LinkTable
  | [], k, v => [(k, v)]
  | (k', v') :: rest, k, v =>
      if k' = k then (k, v) :: rest else (k', v') :: LinkTable.assign rest k v

/-- The names of the members every plain JavaScript object inherits from
`Object.prototype`. All are data properties holding functions, except `__proto__`,
which is an accessor: reading it yields the object's prototype and assigning an object
to it replaces the prototype. -/
def objectPrototypeNames : List String :=
  [ "constructor", "__defineGetter__", "__defineSetter__", "hasOwnProperty",
    "__lookupGetter__", "__lookupSetter__", "isPrototypeOf", "propertyIsEnumerable",
    "toString", "valueOf", "__proto__", "toLocaleString" ]

/-- The object `availableLinks`: its own properties, and its prototype, which is
`Object.prototype` (`none`) unless a stored link was installed through `__proto__`
(`some`); the prototype of such a link object is `Object.prototype`. -/
structure AvailableLinks where
  own : LinkTable
  proto : Option StoredLink
  deriving DecidableEq, Repr

/-- The empty object `{}`. -/
def AvailableLinks.empty : AvailableLinks :=
  { own := [], proto := none }

/-- `availableLinks[k] = v` for a stored link `v`. For `k = "__proto__"` without an own
property of that name the inherited setter runs and `v` becomes the prototype; every
other inherited member is a writable data property, so an own property is written. -/
def AvailableLinks.setProp (t : AvailableLinks) (k : String) (v : StoredLink) :
    AvailableLinks :=
  if k = "__proto__" ∧ t.own.lookup k = none then { t with proto := some v }
  else { t with own := t.own.assign k v }

/-- What `availableLinks[rel]` evaluates to: `undefined`, a stored link object, a
string (a field of a link installed as prototype), or the member `name` inherited
from `Object.prototype` (a function, or `Object.prototype` itself for `__proto__`). -/
inductive Lookup where
  | undefined
  | link (l : StoredLink)
  | text (s : String)
  | inherited (name : String)
  deriving DecidableEq, Repr

/-- JavaScript `ToBoolean` of a looked-up value. -/
def Lookup.truthy : Lookup → Bool
  | .undefined => false
  | .link _ => true
  | .text s => decide (s ≠ "")
  | .inherited _ => true

/-- The names `availableLinks` inherits: those of `Object.prototype`, and the three
fields of a link installed as prototype. -/
def AvailableLinks.inheritedNames (t : AvailableLinks) : List String :=
  match t.proto with
  | some _ => objectPrototypeNames ++ ["href", "method", "description"]
  | none => objectPrototypeNames

/-- `availableLinks[rel]`: an own property, else what the prototype chain gives. -/
def AvailableLinks.getProp (t : AvailableLinks) (rel : String) : Lookup :=
  match t.own.lookup rel with
  | some l => .link l
  | none =>
    match t.proto with
    | some p =>
      if rel = "__proto__" then .link p
      else if rel = "href" then .text p.href
      else if rel = "method" then .text p.method
      else if rel = "description" then .text p.description
      else if rel ∈ objectPrototypeNames then .inherited rel
      else .undefined
    | none => if rel ∈ objectPrototypeNames then .inherited rel else .undefined

/-- `x || d` for an optional string `x`. -/
def orDefault : Option String → String → String
  | some s, d => if s ≠ "" then s else d
  | none, d => d

/-- The object `saveLinks` stores for a link. -/
def toStored (link : RawLink) : StoredLink :=
  { href := link.href,
    method := orDefault link.method "GET",
    description := orDefault link.description link.rel }

/-- `saveLinks(links)`, as a function of the object `availableLinks` before. -/
def saveLinks (links : LinksField) (availableLinks : AvailableLinks) : AvailableLinks :=
  match links with
  | .falsy => availableLinks
  | .notArray => availableLinks
  | .array ls =>
    ls.foldl (fun t link => t.setProp link.rel (toStored link)) AvailableLinks.empty

/-- `findLink(rel)`: `return availableLinks[rel]`. -/
def findLink (availableLinks : AvailableLinks) (rel : String) : Lookup :=
  availableLinks.getProp rel

/-- What the client reads of a parsed response: `response.ok` and the body's `links`. -/
structure ServerResponse where
  ok : Bool
  links : LinksField
  deriving DecidableEq

/-- The object `availableLinks` after `startApplication` has read the response of the entry point. -/
def afterStart (r : ServerResponse) (t : AvailableLinks) : AvailableLinks :=
  saveLinks r.links t

/-- The object `availableLinks` after `loadMenu` has read its response. -/
def afterMenu (r : ServerResponse) (t : AvailableLinks) : AvailableLinks :=
  saveLinks r.links t

/-- The object `availableLinks` after `submitOrder` has read its response: links are saved only
`if (response.ok)`. -/
def afterOrder (r : ServerResponse) (t : AvailableLinks) : AvailableLinks :=
  if r.ok then saveLinks r.links t else t

/-- The object `availableLinks` after `trackOrder` has read its response. -/
def afterTrack (r : ServerResponse) (t : AvailableLinks) : AvailableLinks :=
  saveLinks r.links t

/-- The object `availableLinks` after `cancelOrder` has read its response. -/
def afterCancel (r : ServerResponse) (t : AvailableLinks) : AvailableLinks :=
  saveLinks r.links t

/-- What the client's code reads from the browser: `API_URL`, whether the pages
`track` and `menu` carry the class `active`, and the answer to `confirm`. -/
structure Browser where
  apiUrl : String
  trackActive : Bool
  menuActive : Bool
  confirmAnswer : Bool
  deriving DecidableEq, Repr

/-- The HTTP requests a function issues itself, as (URL, method), and the alerts it
shows. What happens when a response arrives is described by the `after` functions. -/
structure Effects where
  requests : List (String × String)
  alerts : List String
  deriving DecidableEq, Repr

/-- `loadMenu(menuUrl)`: `fetch(menuUrl)`. -/
def loadMenu (menuUrl : String) : Effects :=
  { requests := [(menuUrl, "GET")], alerts := [] }

/-- `trackOrder(trackUrl)`: `fetch(trackUrl)`. -/
def trackOrder (trackUrl : String) : Effects :=
  { requests := [(trackUrl, "GET")], alerts := [] }

/-- `cancelOrder(cancelUrl)`: after `confirm`, `fetch(cancelUrl, { method: 'DELETE' })`. -/
def cancelOrder (b : Browser) (cancelUrl : String) : Effects :=
  if !b.confirmAnswer then { requests := [], alerts := [] }
  else { requests := [(cancelUrl, "DELETE")], alerts := [] }

/-- `startApplication()`: fetches the entry point, built from `API_URL`. -/
def startApplication (b : Browser) : Effects :=
  { requests := [(b.apiUrl ++ "/v1/start", "GET")], alerts := [] }

/-- `submitOrder(event)`: `currentPizza` is the selected pizza, if any, and `quantity`
the parsed quantity field (`none` for `NaN`). A truthy looked-up value that is not a
link object has neither `href` nor `method`, so `fetch` is called with the URL
`undefined` and the default method; this cannot happen for `order`, which is not an
inherited name. -/
def submitOrder (currentPizza : Option Nat) (quantity : Option Int)
    (availableLinks : AvailableLinks) : Effects :=
  match currentPizza, quantity with
  | some _, some q =>
    if q < 1 then
      { requests := [], alerts := ["Veuillez sélectionner une pizza et une quantité valide."] }
    else
      let orderLink := findLink availableLinks "order"
      if !orderLink.truthy then
        { requests := [], alerts := ["Impossible de trouver le lien pour commander"] }
      else
        match orderLink with
        | .link l => { requests := [(l.href, l.method)], alerts := [] }
        | _ => { requests := [("undefined", "GET")], alerts := [] }
  | _, _ =>
    { requests := [], alerts := ["Veuillez sélectionner une pizza et une quantité valide."] }

/-- `followLink(rel, link)`. -/
def followLink (b : Browser) (rel : String) (link : StoredLink) : Effects :=
  if rel = "menu" then loadMenu link.href
  else if rel = "self" then
    if b.trackActive then trackOrder link.href
    else if b.menuActive then loadMenu link.href
    else { requests := [], alerts := [] }
  else if rel = "track" then trackOrder link.href
  else if rel = "cancel" then cancelOrder b link.href
  else if rel = "start" then startApplication b
  else { requests := [], alerts := ["Action non prise en charge: " ++ rel] }

/-- The links of the server's menu response, as the client reads them. -/
def menuResponseLinks : List RawLink :=
  [ { rel := "self", href := "http://localhost:3001/v1/menu", method := some "GET",
      description := some "Recharger le menu" },
    { rel := "order", href := "http://localhost:3001/v1/order", method := some "POST",
      description := some "Commander une pizza" },
    { rel := "start", href := "http://localhost:3001/v1/start", method := some "GET",
      description := some "Revenir à la page d'accueil" } ]

/-- The links of a 400 or 404 answer to a create request. -/
def errorResponseLinks : List RawLink :=
  [ { rel := "menu", href := "http://localhost:3001/v1/menu", method := some "GET",
      description := some "Revenir au menu" } ]

/-- A response array with one link whose relation is `__proto__`. -/
def protoResponseLinks : List RawLink :=
  [ { rel := "__proto__", href := "http://localhost:3001/v1/menu", method := some "GET",
      description := some "Revenir au menu" } ]

/-- A browser on the order page of the local demo, where the user confirms. -/
def sampleBrowser : Browser :=
  { apiUrl := "http://localhost:3001", trackActive := false, menuActive := false,
    confirmAnswer := true }

end Client

/-! ## Frame properties of the store -/

/-- The keys of the store, in insertion order. -/
def Orders.keys (m : Orders) : List String :=
  m.map (fun e => e.1)

/-- The action is a create request whose generated identifier is `k`. -/
def Action.generates (k : String) : Action → Bool
  | .request _ (.create _ _ newId _) => decide (newId = k)
  | _ => false

/-- A server holding two orders, `o1` (pending) and `o2` (baking). -/
def twoOrders : State :=
  { orders :=
      [ ("o1", { orderId := "o1", pizzaId := .num 1, pizzaName := "Margherita",
                 quantity := .num 2, status := "pending", createdAt := 0 }),
        ("o2", { orderId := "o2", pizzaId := .num 2, pizzaName := "Pepperoni",
                 quantity := .num 1, status := "baking", createdAt := 5 }) ],
    timers := [] }

/-! ## The loading overlay (`src/assets/loading-manager.js`) -/

namespace Loader

/-- What `PizzaLoader` reads and writes: its field `isVisible`, the overlay's class
name without the class `active`, whether the overlay carries the class `active`, the
text of `.loading-text`, `document.body.style.overflow`, and the number of callbacks
registered with `requestAnimationFrame` by `show()` that have not run yet. -/
structure LoaderState where
  isVisible : Bool
  className : String
  active : Bool
  text : String
  overflow : String
  frames : Nat
  deriving DecidableEq, Repr

/-- The loader after the constructor and `createLoadingOverlay()`. -/
def initial : LoaderState :=
  { isVisible := false, className := "loading-overlay", active := false,
    text := "Réveil du serveur en cours", overflow := "", frames := 0 }

/-- The method `show(theme, customMessage)` (`show` is reserved in Lean). Assigning `className` drops the class `active`. The
callback that adds `active` and sets `isVisible` is only registered here. -/
def showLoader (st : LoaderState) (theme : String) (customMessage : Option String) :
    LoaderState :=
  if st.isVisible then st
  else
    { isVisible := st.isVisible,
      className := "loading-overlay " ++ theme ++ "-theme",
      active := false,
      text := (match customMessage with
        | some m => if m ≠ "" then m else st.text
        | none => st.text),
      overflow := "hidden",
      frames := st.frames + 1 }

/-- The callback `show()` passes to `requestAnimationFrame`. -/
def frameCallback (st : LoaderState) : LoaderState :=
  { st with active := true, isVisible := true }

/-- `hide()`. -/
def hide (st : LoaderState) : LoaderState :=
  if !st.isVisible then st
  else { st with active := false, isVisible := false, overflow := "" }

/-- What happens after `wrapApiCall` has called `show`: an animation frame runs one
registered callback, or `apiCall` settles and the `finally` block calls `hide`. -/
inductive LoaderEvent where
  | frame
  | settle
  deriving DecidableEq, Repr

/-- The effect of one event on the loader. -/
def step (st : LoaderState) : LoaderEvent → LoaderState
  | .frame => if st.frames = 0 then st else { frameCallback st with frames := st.frames - 1 }
  | .settle => hide st

/-- The loader after `wrapApiCall(apiCall, theme, message)` was called in state `st`
and the given events happened in that order. -/
def afterWrapApiCall (st : LoaderState) (theme : String) (message : Option String)
    (events : List LoaderEvent) : LoaderState :=
  events.foldl step (showLoader st theme message)

/-- How the promise returned by `wrapApiCall(apiCall)` settles, given how `apiCall`
settles: `return result`, or `throw error` from the `catch` block. -/
def wrapApiCall {ε α : Type} (apiCall : Except ε α) : Except ε α :=
  match apiCall with
  | .ok result => .ok result
  | .error error => .error error

end Loader

/-! ## The order store -/

namespace Orders

theorem has_eq_isSome (m : Orders) (k : String) : m.has k = (m.get k).isSome := rfl

theorem get_set_self (m : Orders) (k : String) (v : Order) : (m.set k v).get k = some v := by
  induction m with
  | nil => simp [set, get, List.lookup]
  | cons hd tl ih =>
    obtain ⟨k', v'⟩ := hd
    by_cases hk : k' = k
    · simp [set, get, hk, List.lookup]
    · have hk2 : (k == k') = false := by simpa using fun h => hk h.symm
      simp only [get] at ih
      simp [set, get, hk, List.lookup, hk2, ih]

theorem get_set_other (m : Orders) (k k' : String) (v : Order) (h : k' ≠ k) :
    (m.set k v).get k' = m.get k' := by
  induction m with
  | nil =>
    have : (k' == k) = false := by simpa using h
    simp [set, get, List.lookup, this]
  | cons hd tl ih =>
    obtain ⟨k1, v1⟩ := hd
    simp only [get] at ih
    by_cases hk : k1 = k
    · subst hk
      have : (k' == k1) = false := by simpa using h
      simp [set, get, List.lookup, this]
    · by_cases h1 : k' = k1
      · subst h1; simp [set, get, List.lookup, hk]
      · have : (k' == k1) = false := by simpa using h1
        simp [set, get, List.lookup, hk, this, ih]

theorem get_setStatus_self (m : Orders) (k st : String) (o : Order) (h : m.get k = some o) :
    (m.setStatus k st).get k = some { o with status := st } := by
  induction m with
  | nil => simp [get, List.lookup] at h
  | cons hd tl ih =>
    obtain ⟨k1, v1⟩ := hd
    simp only [get] at ih h
    by_cases hk : k1 = k
    · subst hk
      simp [List.lookup] at h
      simp [setStatus, get, List.lookup, h]
    · have hk2 : (k == k1) = false := by simpa using fun h => hk h.symm
      simp [List.lookup, hk2] at h
      simp [setStatus, get, hk, List.lookup, hk2, ih h]

theorem get_setStatus_other (m : Orders) (k k' st : String) (h : k' ≠ k) :
    (m.setStatus k st).get k' = m.get k' := by
  induction m with
  | nil => simp [setStatus]
  | cons hd tl ih =>
    obtain ⟨k1, v1⟩ := hd
    simp only [get] at ih
    by_cases hk : k1 = k
    · subst hk
      have : (k' == k1) = false := by simpa using h
      simp [setStatus, get, List.lookup, this]
    · by_cases h1 : k' = k1
      · subst h1; simp [setStatus, get, List.lookup, hk]
      · have : (k' == k1) = false := by simpa using h1
        simp [setStatus, get, List.lookup, hk, this, ih]

theorem setStatus_same (m : Orders) (k : String) (o : Order) (h : m.get k = some o) :
    m.setStatus k o.status = m := by
  induction m with
  | nil => rfl
  | cons hd tl ih =>
    obtain ⟨k1, v1⟩ := hd
    simp only [get] at ih h
    by_cases hk : k1 = k
    · subst hk
      simp [List.lookup] at h
      simp [setStatus, h]
    · have hk2 : (k == k1) = false := by simpa using fun h => hk h.symm
      simp [List.lookup, hk2] at h
      simp [setStatus, hk, ih h]

theorem statusOf_eq (m : Orders) (k : String) : m.statusOf k = (m.get k).map (fun o => o.status) := rfl

end Orders

namespace Hateoas

theorem getTrack_found (req : Req) (orderId : String) (s : State) (o : Order)
    (h : s.orders.get orderId = some o) :
    getTrack req orderId s =
      ({ status := 200,
         body := .order
           { orderId := o.orderId, pizzaName := o.pizzaName, quantity := some o.quantity,
             status := o.status, createdAt := some o.createdAt }
           (if !(["ready", "delivered", "cancelled"].contains o.status) then
              [ { rel := "self", href := getFullUrl req ("/v1/track/" ++ orderId),
                  method := "GET", description := "Rafraîchir les informations de suivi" },
                menuLink req,
                { rel := "cancel", href := getFullUrl req ("/v1/order/" ++ orderId ++ "/cancel"),
                  method := "DELETE", description := "Annuler cette commande" } ]
            else
              [ { rel := "self", href := getFullUrl req ("/v1/track/" ++ orderId),
                  method := "GET", description := "Rafraîchir les informations de suivi" },
                menuLink req ]) }, s) := by
  unfold getTrack
  rw [Orders.has_eq_isSome, h]
  by_cases hc : ["ready", "delivered", "cancelled"].contains o.status = true <;> simp [hc]

theorem getTrack_missing (req : Req) (orderId : String) (s : State)
    (h : s.orders.get orderId = none) :
    getTrack req orderId s =
      ({ status := 404, body := .error "Commande non trouvée" [menuLink req] }, s) := by
  unfold getTrack
  rw [Orders.has_eq_isSome, h]
  simp

theorem deleteCancel_missing (req : Req) (orderId : String) (s : State)
    (h : s.orders.get orderId = none) :
    deleteCancel req orderId s =
      ({ status := 404, body := .error "Commande non trouvée" [menuLink req] }, s) := by
  unfold deleteCancel
  rw [Orders.has_eq_isSome, h]
  simp

theorem deleteCancel_rejected (req : Req) (orderId : String) (s : State) (o : Order)
    (h : s.orders.get orderId = some o) (hs : o.status = "ready" ∨ o.status = "delivered") :
    deleteCancel req orderId s =
      ({ status := 400,
         body := .error "La commande ne peut plus être annulée"
           [ { rel := "track", href := getFullUrl req ("/v1/track/" ++ orderId),
               method := "GET", description := "Suivre cette commande" },
             menuLink req ] }, s) := by
  unfold deleteCancel
  rw [Orders.has_eq_isSome, h]
  rcases hs with hs | hs <;> simp [hs]

theorem deleteCancel_done (req : Req) (orderId : String) (s : State) (o : Order)
    (h : s.orders.get orderId = some o) (h1 : o.status ≠ "ready") (h2 : o.status ≠ "delivered") :
    deleteCancel req orderId s =
      ({ status := 200,
         body := .order
           { orderId := o.orderId, pizzaName := o.pizzaName, quantity := none,
             status := "cancelled", createdAt := none }
           [ menuLink req,
             { rel := "order", href := getFullUrl req "/v1/order", method := "POST",
               description := "Passer une nouvelle commande" } ] },
       { s with orders := s.orders.setStatus orderId "cancelled" }) := by
  unfold deleteCancel
  rw [Orders.has_eq_isSome, h]
  simp [h1, h2]

end Hateoas

open Hateoas

/-- C1: for a stored order, the track response (which leaves the store as it is)
carries a `cancel` link iff the order's status is none of ready, delivered, cancelled;
and the cancel response carries a `cancel` link iff the status the order has in the
store when the response is built is none of ready, delivered, cancelled. -/
theorem cancel_link_iff_status_open (req : Req) (orderId : String) (s : State) (o : Order)
    (h : s.orders.get orderId = some o) :
    ((getTrack req orderId s).2 = s ∧
      ("cancel" ∈ rels (getTrack req orderId s).1.body.links ↔
        o.status ∉ ["ready", "delivered", "cancelled"])) ∧
    (∃ st, (deleteCancel req orderId s).2.orders.statusOf orderId = some st ∧
      ("cancel" ∈ rels (deleteCancel req orderId s).1.body.links ↔
        st ∉ ["ready", "delivered", "cancelled"])) := by
  refine ⟨?_, ?_⟩
  · rw [getTrack_found req orderId s o h]
    refine ⟨rfl, ?_⟩
    by_cases hc : ["ready", "delivered", "cancelled"].contains o.status = true
    · have hm : o.status ∈ ["ready", "delivered", "cancelled"] := by simpa using hc
      simp [hc, hm, rels, Body.links, menuLink]
    · have hm : o.status ∉ ["ready", "delivered", "cancelled"] := by simpa using hc
      simp [hc, hm, rels, Body.links, menuLink]
  · by_cases hs : o.status = "ready" ∨ o.status = "delivered"
    · rw [deleteCancel_rejected req orderId s o h hs]
      refine ⟨o.status, by simp [Orders.statusOf_eq, h], ?_⟩
      rcases hs with hs | hs <;> simp [hs, rels, Body.links, menuLink]
    · push_neg at hs
      rw [deleteCancel_done req orderId s o h hs.1 hs.2]
      refine ⟨"cancelled", ?_, ?_⟩
      · simp [Orders.statusOf_eq, Orders.get_setStatus_self _ _ _ _ h]
      · simp [rels, Body.links, menuLink]

theorem cancel_link_iff_status_open_witness :
    (sampleState "baking").orders.get "o1" = some (sampleOrder "baking") ∧
    (((getTrack sampleReq "o1" (sampleState "baking")).2 = sampleState "baking" ∧
      ("cancel" ∈ rels (getTrack sampleReq "o1" (sampleState "baking")).1.body.links ↔
        (sampleOrder "baking").status ∉ ["ready", "delivered", "cancelled"])) ∧
    (∃ st, (deleteCancel sampleReq "o1" (sampleState "baking")).2.orders.statusOf "o1" = some st ∧
      ("cancel" ∈ rels (deleteCancel sampleReq "o1" (sampleState "baking")).1.body.links ↔
        st ∉ ["ready", "delivered", "cancelled"]))) :=
  ⟨by decide,
   cancel_link_iff_status_open sampleReq "o1" (sampleState "baking") (sampleOrder "baking")
     (by decide)⟩

/-- C4: for a stored order whose status is ready or delivered, the cancel handler
answers 400, leaves the whole server state (so the order's status) unchanged, and its
links are exactly `track` (GET on the track URL of this order) then `menu`, with no
`cancel` link. -/
theorem cancel_rejected_when_ready_or_delivered (req : Req) (orderId : String) (s : State)
    (o : Order) (h : s.orders.get orderId = some o)
    (hs : o.status = "ready" ∨ o.status = "delivered") :
    (deleteCancel req orderId s).1.status = 400 ∧
    (deleteCancel req orderId s).2 = s ∧
    (deleteCancel req orderId s).2.orders.statusOf orderId = some o.status ∧
    rels (deleteCancel req orderId s).1.body.links = ["track", "menu"] ∧
    linkTargets (deleteCancel req orderId s).1.body.links =
      [ ("track", "GET", getFullUrl req ("/v1/track/" ++ orderId)),
        ("menu", "GET", getFullUrl req "/v1/menu") ] ∧
    "cancel" ∉ rels (deleteCancel req orderId s).1.body.links := by
  rw [deleteCancel_rejected req orderId s o h hs]
  simp [rels, linkTargets, Body.links, menuLink, Orders.statusOf_eq, h]

theorem cancel_rejected_when_ready_or_delivered_witness :
    ((sampleState "ready").orders.get "o1" = some (sampleOrder "ready") ∧
      ((sampleOrder "ready").status = "ready" ∨ (sampleOrder "ready").status = "delivered")) ∧
    ((deleteCancel sampleReq "o1" (sampleState "ready")).1.status = 400 ∧
    (deleteCancel sampleReq "o1" (sampleState "ready")).2 = sampleState "ready" ∧
    (deleteCancel sampleReq "o1" (sampleState "ready")).2.orders.statusOf "o1" =
      some (sampleOrder "ready").status ∧
    rels (deleteCancel sampleReq "o1" (sampleState "ready")).1.body.links = ["track", "menu"] ∧
    linkTargets (deleteCancel sampleReq "o1" (sampleState "ready")).1.body.links =
      [ ("track", "GET", getFullUrl sampleReq ("/v1/track/" ++ "o1")),
        ("menu", "GET", getFullUrl sampleReq "/v1/menu") ] ∧
    "cancel" ∉ rels (deleteCancel sampleReq "o1" (sampleState "ready")).1.body.links) :=
  ⟨⟨by decide, Or.inl (by decide)⟩,
   cancel_rejected_when_ready_or_delivered sampleReq "o1" (sampleState "ready")
     (sampleOrder "ready") (by decide) (Or.inl (by decide))⟩

/-- C5: for a stored order whose status is pending, preparing or baking, the cancel
handler answers 200, the stored order becomes the same record with status cancelled,
the body reports status cancelled, and the links are exactly `menu` then `order`, with
no `cancel` link. -/
theorem cancel_succeeds_when_in_progress (req : Req) (orderId : String) (s : State)
    (o : Order) (h : s.orders.get orderId = some o)
    (hs : o.status = "pending" ∨ o.status = "preparing" ∨ o.status = "baking") :
    (deleteCancel req orderId s).1.status = 200 ∧
    (deleteCancel req orderId s).2.orders.get orderId = some { o with status := "cancelled" } ∧
    (deleteCancel req orderId s).2.orders.statusOf orderId = some "cancelled" ∧
    (deleteCancel req orderId s).1.body.orderStatus = some "cancelled" ∧
    rels (deleteCancel req orderId s).1.body.links = ["menu", "order"] ∧
    "cancel" ∉ rels (deleteCancel req orderId s).1.body.links := by
  have h1 : o.status ≠ "ready" := by rcases hs with hs | hs | hs <;> simp [hs]
  have h2 : o.status ≠ "delivered" := by rcases hs with hs | hs | hs <;> simp [hs]
  rw [deleteCancel_done req orderId s o h h1 h2]
  simp [rels, Body.links, Body.orderStatus, menuLink, Orders.statusOf_eq,
    Orders.get_setStatus_self _ _ _ _ h]

theorem cancel_succeeds_when_in_progress_witness :
    ((sampleState "pending").orders.get "o1" = some (sampleOrder "pending") ∧
      ((sampleOrder "pending").status = "pending" ∨ (sampleOrder "pending").status = "preparing" ∨
        (sampleOrder "pending").status = "baking")) ∧
    ((deleteCancel sampleReq "o1" (sampleState "pending")).1.status = 200 ∧
    (deleteCancel sampleReq "o1" (sampleState "pending")).2.orders.get "o1" =
      some { sampleOrder "pending" with status := "cancelled" } ∧
    (deleteCancel sampleReq "o1" (sampleState "pending")).2.orders.statusOf "o1" =
      some "cancelled" ∧
    (deleteCancel sampleReq "o1" (sampleState "pending")).1.body.orderStatus = some "cancelled" ∧
    rels (deleteCancel sampleReq "o1" (sampleState "pending")).1.body.links = ["menu", "order"] ∧
    "cancel" ∉ rels (deleteCancel sampleReq "o1" (sampleState "pending")).1.body.links) :=
  ⟨⟨by decide, Or.inl (by decide)⟩,
   cancel_succeeds_when_in_progress sampleReq "o1" (sampleState "pending")
     (sampleOrder "pending") (by decide) (Or.inl (by decide))⟩

/-- C9: for an order id that is not a key of the store, the track handler and the
cancel handler both return a response (they are total: nothing is thrown) with status
404 and links exactly `menu`, and leave the server state unchanged. -/
theorem unknown_order_is_404_with_menu (req : Req) (orderId : String) (s : State)
    (h : s.orders.has orderId = false) :
    ((getTrack req orderId s).1.status = 404 ∧
      rels (getTrack req orderId s).1.body.links = ["menu"] ∧
      (getTrack req orderId s).2 = s) ∧
    ((deleteCancel req orderId s).1.status = 404 ∧
      rels (deleteCancel req orderId s).1.body.links = ["menu"] ∧
      (deleteCancel req orderId s).2 = s) := by
  have hg : s.orders.get orderId = none := by
    rw [Orders.has_eq_isSome] at h
    simpa using h
  rw [getTrack_missing req orderId s hg, deleteCancel_missing req orderId s hg]
  simp [rels, Body.links, menuLink]

theorem unknown_order_is_404_with_menu_witness :
    (sampleState "pending").orders.has "nope" = false ∧
    (((getTrack sampleReq "nope" (sampleState "pending")).1.status = 404 ∧
      rels (getTrack sampleReq "nope" (sampleState "pending")).1.body.links = ["menu"] ∧
      (getTrack sampleReq "nope" (sampleState "pending")).2 = sampleState "pending") ∧
    ((deleteCancel sampleReq "nope" (sampleState "pending")).1.status = 404 ∧
      rels (deleteCancel sampleReq "nope" (sampleState "pending")).1.body.links = ["menu"] ∧
      (deleteCancel sampleReq "nope" (sampleState "pending")).2 = sampleState "pending")) :=
  ⟨by decide, unknown_order_is_404_with_menu sampleReq "nope" (sampleState "pending") (by decide)⟩

/-- C10: for a stored order the track response's links are exactly `self`, `menu`,
`cancel` when the status is pending, preparing or baking, and exactly `self`, `menu`
when it is ready, delivered or cancelled; `self` is GET on the track URL of the order
and `cancel` is DELETE on the cancel URL of the order. -/
theorem track_links_by_status (req : Req) (orderId : String) (s : State) (o : Order)
    (h : s.orders.get orderId = some o) :
    ((o.status = "pending" ∨ o.status = "preparing" ∨ o.status = "baking") →
      rels (getTrack req orderId s).1.body.links = ["self", "menu", "cancel"] ∧
      linkTargets (getTrack req orderId s).1.body.links =
        [ ("self", "GET", getFullUrl req ("/v1/track/" ++ orderId)),
          ("menu", "GET", getFullUrl req "/v1/menu"),
          ("cancel", "DELETE", getFullUrl req ("/v1/order/" ++ orderId ++ "/cancel")) ]) ∧
    ((o.status = "ready" ∨ o.status = "delivered" ∨ o.status = "cancelled") →
      rels (getTrack req orderId s).1.body.links = ["self", "menu"] ∧
      linkTargets (getTrack req orderId s).1.body.links =
        [ ("self", "GET", getFullUrl req ("/v1/track/" ++ orderId)),
          ("menu", "GET", getFullUrl req "/v1/menu") ]) := by
  rw [getTrack_found req orderId s o h]
  refine ⟨fun hs => ?_, fun hs => ?_⟩
  · rcases hs with hs | hs | hs <;> simp [hs, rels, linkTargets, Body.links, menuLink]
  · rcases hs with hs | hs | hs <;> simp [hs, rels, linkTargets, Body.links, menuLink]

theorem track_links_by_status_witness :
    (rels (getTrack sampleReq "o1" (sampleState "preparing")).1.body.links =
        ["self", "menu", "cancel"] ∧
      linkTargets (getTrack sampleReq "o1" (sampleState "preparing")).1.body.links =
        [ ("self", "GET", getFullUrl sampleReq ("/v1/track/" ++ "o1")),
          ("menu", "GET", getFullUrl sampleReq "/v1/menu"),
          ("cancel", "DELETE", getFullUrl sampleReq ("/v1/order/" ++ "o1" ++ "/cancel")) ]) ∧
    (rels (getTrack sampleReq "o1" (sampleState "ready")).1.body.links = ["self", "menu"] ∧
      linkTargets (getTrack sampleReq "o1" (sampleState "ready")).1.body.links =
        [ ("self", "GET", getFullUrl sampleReq ("/v1/track/" ++ "o1")),
          ("menu", "GET", getFullUrl sampleReq "/v1/menu") ]) :=
  ⟨(track_links_by_status sampleReq "o1" (sampleState "preparing") (sampleOrder "preparing")
      (by decide)).1 (Or.inr (Or.inl (by decide))),
   (track_links_by_status sampleReq "o1" (sampleState "ready") (sampleOrder "ready")
      (by decide)).2 (Or.inl (by decide))⟩

/-! ## The create handler -/

namespace JSVal

theorem find_seeded (p : Pizza) (hp : p ∈ pizzas) :
    pizzas.find? (fun p' => strictEqNat p'.id (.num p.id)) = some p := by
  simp only [pizzas, List.mem_cons, List.mem_singleton, List.not_mem_nil, or_false] at hp
  rcases hp with rfl | rfl | rfl | rfl <;>
    simp [pizzas, List.find?, strictEqNat]

theorem find_unknown (v : JSVal) (h : ∀ p ∈ pizzas, v ≠ .num p.id) :
    pizzas.find? (fun p => strictEqNat p.id v) = none := by
  rw [List.find?_eq_none]
  intro p hp
  cases v with
  | num q =>
    have := h p hp
    simp only [strictEqNat, decide_eq_true_eq]
    intro hq
    exact this (by rw [hq])
  | _ => simp [strictEqNat]

/-- The validation test of the create handlers accepts a truthy `pizzaId` together with
a positive integer quantity. -/
theorem guard_posInt (v : JSVal) (n : Nat) (hv : v.truthy = true) (hn : 0 < n) :
    (!v.truthy || !(num n).truthy || !(num n).isInteger || (num n).leZero) = false := by
  have h0 : (n : Rat) ≠ 0 := by exact_mod_cast (Nat.pos_iff_ne_zero.mp hn)
  have h1 : ¬ ((n : Rat) ≤ 0) := by
    have : (0 : Rat) < n := by exact_mod_cast hn
    exact not_le.mpr this
  have h2 : (n : Rat).isInt = true := by
    simp [Rat.isInt]
  rw [hv]
  simp [truthy, isInteger, leZero, h0, h1, h2]

/-- The validation test rejects every quantity that is not a positive integer. -/
theorem guard_not_posInt (v w : JSVal) (h : ∀ n : Nat, 0 < n → w ≠ num n) :
    (!v.truthy || !w.truthy || !w.isInteger || w.leZero) = true := by
  cases w with
  | num q =>
    by_cases hi : q.isInt = true
    · by_cases hq : q ≤ 0
      · simp [leZero, hq]
      · exfalso
        have hqn : q = (q.num : Rat) := Rat.eq_num_of_isInt hi
        have hpos : 0 < q.num := by
          have : (0 : Rat) < q := not_le.mp hq
          exact Rat.num_pos.mpr this
        refine h q.num.toNat (by omega) ?_
        have : ((q.num.toNat : Int) : Rat) = (q.num : Rat) := by
          rw [Int.toNat_of_nonneg hpos.le]
        rw [← Int.cast_natCast, this, ← hqn]
    · simp [isInteger, hi]
  | _ => simp [truthy, isInteger]

end JSVal

namespace Hateoas

theorem postOrder_invalid (req : Req) (pizzaId quantity : JSVal) (newId : String) (now : Nat)
    (s : State)
    (h : (!pizzaId.truthy || !quantity.truthy || !quantity.isInteger || quantity.leZero) = true) :
    postOrder req pizzaId quantity newId now s =
      ({ status := 400, body := .error "pizzaId et quantity sont requis" [menuLink req] }, s) := by
  unfold postOrder
  rw [if_pos h]

theorem postOrder_unknown (req : Req) (pizzaId quantity : JSVal) (newId : String) (now : Nat)
    (s : State)
    (h : (!pizzaId.truthy || !quantity.truthy || !quantity.isInteger || quantity.leZero) = false)
    (hf : pizzas.find? (fun p => JSVal.strictEqNat p.id pizzaId) = none) :
    postOrder req pizzaId quantity newId now s =
      ({ status := 404, body := .error "Pizza non trouvée" [menuLink req] }, s) := by
  unfold postOrder
  rw [if_neg (by simp [h]), hf]

theorem postOrder_created (req : Req) (pizzaId quantity : JSVal) (newId : String) (now : Nat)
    (s : State) (pizza : Pizza)
    (h : (!pizzaId.truthy || !quantity.truthy || !quantity.isInteger || quantity.leZero) = false)
    (hf : pizzas.find? (fun p => JSVal.strictEqNat p.id pizzaId) = some pizza) :
    postOrder req pizzaId quantity newId now s =
      ({ status := 201,
         body := .order
           { orderId := newId, pizzaName := pizza.name, quantity := some quantity,
             status := "pending", createdAt := none }
           [ { rel := "self", href := getFullUrl req "/v1/order", method := "POST",
               description := "Passer une nouvelle commande" },
             { rel := "track", href := getFullUrl req ("/v1/track/" ++ newId),
               method := "GET", description := "Suivre cette commande" },
             { rel := "cancel", href := getFullUrl req ("/v1/order/" ++ newId ++ "/cancel"),
               method := "DELETE", description := "Annuler cette commande" },
             menuLink req ] },
       { orders := s.orders.set newId
           { orderId := newId, pizzaId := pizzaId, pizzaName := pizza.name,
             quantity := quantity, status := "pending", createdAt := now },
         timers := s.timers ++ scheduled newId }) := by
  unfold postOrder
  rw [if_neg (by simp [h]), hf]

end Hateoas
open Hateoas

/-- C6: a create request for a seeded pizza `p` with a positive integer quantity `n` is
answered 201 with order status pending; the store then holds under the new id the
record with that pizzaId, `p.name`, the quantity and status pending; the links are
exactly `self`, `track`, `cancel`, `menu`, with `track` GET on the track URL and
`cancel` DELETE on the cancel URL of the new id. -/
theorem create_seeded_pizza (req : Req) (p : Pizza) (n : Nat) (newId : String) (now : Nat)
    (s : State) (hp : p ∈ pizzas) (hn : 0 < n) :
    (postOrder req (.num p.id) (.num n) newId now s).1.status = 201 ∧
    (postOrder req (.num p.id) (.num n) newId now s).1.body.orderStatus = some "pending" ∧
    (postOrder req (.num p.id) (.num n) newId now s).2.orders.get newId =
      some { orderId := newId, pizzaId := .num p.id, pizzaName := p.name,
             quantity := .num n, status := "pending", createdAt := now } ∧
    rels (postOrder req (.num p.id) (.num n) newId now s).1.body.links =
      ["self", "track", "cancel", "menu"] ∧
    linkTargets (postOrder req (.num p.id) (.num n) newId now s).1.body.links =
      [ ("self", "POST", getFullUrl req "/v1/order"),
        ("track", "GET", getFullUrl req ("/v1/track/" ++ newId)),
        ("cancel", "DELETE", getFullUrl req ("/v1/order/" ++ newId ++ "/cancel")),
        ("menu", "GET", getFullUrl req "/v1/menu") ] := by
  have ht : (JSVal.num p.id).truthy = true := by
    simp only [pizzas, List.mem_cons, List.mem_singleton, List.not_mem_nil, or_false] at hp
    rcases hp with rfl | rfl | rfl | rfl <;> simp [JSVal.truthy]
  rw [postOrder_created req _ _ newId now s p (JSVal.guard_posInt _ n ht hn)
    (JSVal.find_seeded p hp)]
  simp [rels, linkTargets, Body.links, Body.orderStatus, menuLink, Orders.get_set_self]

theorem create_seeded_pizza_witness :
    (⟨1, "Margherita", 8⟩ ∈ pizzas ∧ 0 < 2) ∧
    ((postOrder sampleReq (.num (1 : Nat)) (.num (2 : Nat)) "o2" 7 emptyState).1.status = 201 ∧
    (postOrder sampleReq (.num (1 : Nat)) (.num (2 : Nat)) "o2" 7 emptyState).1.body.orderStatus =
      some "pending" ∧
    (postOrder sampleReq (.num (1 : Nat)) (.num (2 : Nat)) "o2" 7 emptyState).2.orders.get "o2" =
      some { orderId := "o2", pizzaId := .num (1 : Nat), pizzaName := "Margherita",
             quantity := .num (2 : Nat), status := "pending", createdAt := 7 } ∧
    rels (postOrder sampleReq (.num (1 : Nat)) (.num (2 : Nat)) "o2" 7 emptyState).1.body.links =
      ["self", "track", "cancel", "menu"] ∧
    linkTargets (postOrder sampleReq (.num (1 : Nat)) (.num (2 : Nat)) "o2" 7 emptyState).1.body.links =
      [ ("self", "POST", getFullUrl sampleReq "/v1/order"),
        ("track", "GET", getFullUrl sampleReq ("/v1/track/" ++ "o2")),
        ("cancel", "DELETE", getFullUrl sampleReq ("/v1/order/" ++ "o2" ++ "/cancel")),
        ("menu", "GET", getFullUrl sampleReq "/v1/menu") ]) :=
  ⟨⟨by decide, by decide⟩,
   create_seeded_pizza sampleReq ⟨1, "Margherita", 8⟩ 2 "o2" 7 emptyState (by decide) (by decide)⟩

/-- C7: a create request whose quantity is not a positive integer (missing, not an
integer, or not positive) is answered 400 with links exactly `menu`; the server state
is unchanged, so no order record is created and no callback is scheduled. -/
theorem create_rejects_bad_quantity (req : Req) (pizzaId quantity : JSVal) (newId : String)
    (now : Nat) (s : State) (h : ∀ n : Nat, 0 < n → quantity ≠ .num n) :
    (postOrder req pizzaId quantity newId now s).1.status = 400 ∧
    rels (postOrder req pizzaId quantity newId now s).1.body.links = ["menu"] ∧
    (postOrder req pizzaId quantity newId now s).2 = s ∧
    (postOrder req pizzaId quantity newId now s).2.orders = s.orders ∧
    (postOrder req pizzaId quantity newId now s).2.timers = s.timers := by
  rw [postOrder_invalid req pizzaId quantity newId now s (JSVal.guard_not_posInt _ _ h)]
  simp [rels, Body.links, menuLink]

theorem create_rejects_bad_quantity_witness :
    ((postOrder sampleReq (.num 1) (.num 0) "o2" 7 emptyState).1.status = 400 ∧
      rels (postOrder sampleReq (.num 1) (.num 0) "o2" 7 emptyState).1.body.links = ["menu"] ∧
      (postOrder sampleReq (.num 1) (.num 0) "o2" 7 emptyState).2 = emptyState ∧
      (postOrder sampleReq (.num 1) (.num 0) "o2" 7 emptyState).2.orders = emptyState.orders ∧
      (postOrder sampleReq (.num 1) (.num 0) "o2" 7 emptyState).2.timers = emptyState.timers) ∧
    (postOrder sampleReq (.num 1) (.num (-1)) "o2" 7 emptyState).1.status = 400 ∧
    (postOrder sampleReq (.num 1) (.num (3 / 2)) "o2" 7 emptyState).1.status = 400 ∧
    (postOrder sampleReq (.num 1) .undefined "o2" 7 emptyState).1.status = 400 :=
  ⟨create_rejects_bad_quantity sampleReq (.num 1) (.num 0) "o2" 7 emptyState (by
      intro n hn h
      have h0 : (0 : Rat) = n := by injection h
      have : (0 : Rat) < n := by exact_mod_cast hn
      linarith),
   (create_rejects_bad_quantity sampleReq (.num 1) (.num (-1)) "o2" 7 emptyState (by
      intro n hn h
      have h0 : (-1 : Rat) = n := by injection h
      have : (0 : Rat) < n := by exact_mod_cast hn
      linarith)).1,
   (create_rejects_bad_quantity sampleReq (.num 1) (.num (3 / 2)) "o2" 7 emptyState (by
      intro n hn h
      have h0 : (3 / 2 : Rat) = n := by injection h
      have h1 : ((3 : Nat) : Rat) = ((2 * n : Nat) : Rat) := by push_cast; linarith
      have h2 : 3 = 2 * n := by exact_mod_cast h1
      omega)).1,
   (create_rejects_bad_quantity sampleReq (.num 1) .undefined "o2" 7 emptyState (by
      intro n hn h
      cases h)).1⟩

/-- C8 as stated fails: `0` is not the id of a seeded pizza and the quantity `1` is a
positive integer, yet the create handler answers 400, not 404. -/
theorem create_unknown_pizza_counterexample :
    0 ∉ pizzas.map (fun p => p.id) ∧ (JSVal.num 1).isInteger = true ∧
    (JSVal.num 1).leZero = false ∧
    (postOrder sampleReq (.num 0) (.num 1) "o2" 7 emptyState).1.status = 400 ∧
    (postOrder sampleReq (.num 0) (.num 1) "o2" 7 emptyState).1.status ≠ 404 := by
  decide

/-- C8, amended: a create request whose quantity is a positive integer and whose
pizzaId is truthy and not strictly equal to the id of any seeded pizza is answered 404
with links exactly `menu`, and the server state is unchanged (no record is created). -/
theorem create_unknown_pizza (req : Req) (pizzaId : JSVal) (n : Nat) (newId : String)
    (now : Nat) (s : State) (hn : 0 < n) (ht : pizzaId.truthy = true)
    (hp : ∀ p ∈ pizzas, pizzaId ≠ .num p.id) :
    (postOrder req pizzaId (.num n) newId now s).1.status = 404 ∧
    rels (postOrder req pizzaId (.num n) newId now s).1.body.links = ["menu"] ∧
    (postOrder req pizzaId (.num n) newId now s).2 = s := by
  rw [postOrder_unknown req pizzaId _ newId now s (JSVal.guard_posInt _ n ht hn)
    (JSVal.find_unknown pizzaId hp)]
  simp [rels, Body.links, menuLink]

theorem create_unknown_pizza_witness :
    (0 < 1 ∧ (JSVal.str "1").truthy = true) ∧
    ((postOrder sampleReq (.str "1") (.num (1 : Nat)) "o2" 7 emptyState).1.status = 404 ∧
    rels (postOrder sampleReq (.str "1") (.num (1 : Nat)) "o2" 7 emptyState).1.body.links =
      ["menu"] ∧
    (postOrder sampleReq (.str "1") (.num (1 : Nat)) "o2" 7 emptyState).2 = emptyState) :=
  ⟨⟨by decide, by decide⟩,
   create_unknown_pizza sampleReq (.str "1") 1 "o2" 7 emptyState (by decide) (by decide)
     (by intro p _ h; cases h)⟩

/-! ## Executions -/

namespace Orders

theorem statusOf_setStatus_self (m : Orders) (k st : String) (o : Order) (h : m.get k = some o) :
    (m.setStatus k st).statusOf k = some st := by
  simp [statusOf_eq, get_setStatus_self m k st o h]

theorem statusOf_setStatus_other (m : Orders) (k k' st : String) (h : k' ≠ k) :
    (m.setStatus k st).statusOf k' = m.statusOf k' := by
  simp [statusOf_eq, get_setStatus_other m k k' st h]

theorem statusOf_some (m : Orders) (k st : String) (h : m.statusOf k = some st) :
    ∃ o, m.get k = some o ∧ o.status = st := by
  rw [statusOf_eq] at h
  cases hg : m.get k with
  | none => simp [hg] at h
  | some o => exact ⟨o, rfl, by simpa [hg] using h⟩

end Orders

namespace Hateoas

theorem getTrack_state (req : Req) (orderId : String) (s : State) :
    (getTrack req orderId s).2 = s := by
  cases h : s.orders.get orderId with
  | none => rw [getTrack_missing req orderId s h]
  | some o => rw [getTrack_found req orderId s o h]

/-- The cancel handler either leaves the state as it is, or sets the status of the
addressed order, which was neither ready nor delivered, to cancelled. -/
theorem deleteCancel_state (req : Req) (orderId : String) (s : State) :
    (deleteCancel req orderId s).2 = s ∨
    (∃ o, s.orders.get orderId = some o ∧ o.status ≠ "ready" ∧ o.status ≠ "delivered" ∧
      (deleteCancel req orderId s).2 =
        { s with orders := s.orders.setStatus orderId "cancelled" }) := by
  cases h : s.orders.get orderId with
  | none => left; rw [deleteCancel_missing req orderId s h]
  | some o =>
    by_cases hs : o.status = "ready" ∨ o.status = "delivered"
    · left; rw [deleteCancel_rejected req orderId s o h hs]
    · push_neg at hs
      right
      exact ⟨o, rfl, hs.1, hs.2, by rw [deleteCancel_done req orderId s o h hs.1 hs.2]⟩

/-- A callback either leaves the store as it is, or assigns its target to a stored,
not cancelled order. -/
theorem progress_cases (orders : Orders) (orderId target : String) :
    progress orders orderId target = orders ∨
    (∃ o, orders.get orderId = some o ∧ o.status ≠ "cancelled" ∧
      progress orders orderId target = orders.setStatus orderId target) := by
  unfold progress
  cases h : orders.get orderId with
  | none => left; rfl
  | some o =>
    by_cases hs : o.status = "cancelled"
    · left; simp [hs]
    · right; exact ⟨o, rfl, hs, by simp [hs]⟩

theorem progress_cancelled (orders : Orders) (orderId target : String) (o : Order)
    (h : orders.get orderId = some o) (hs : o.status = "cancelled") :
    progress orders orderId target = orders := by
  unfold progress
  simp [h, hs]

theorem statusOf_progress_other (orders : Orders) (orderId target k : String)
    (h : k ≠ orderId) :
    (progress orders orderId target).statusOf k = orders.statusOf k := by
  rcases progress_cases orders orderId target with hp | ⟨o, _, _, hp⟩
  · rw [hp]
  · rw [hp, Orders.statusOf_setStatus_other _ _ _ _ h]

theorem statusOf_deleteCancel_other (req : Req) (orderId k : String) (s : State)
    (h : k ≠ orderId) :
    (deleteCancel req orderId s).2.orders.statusOf k = s.orders.statusOf k := by
  rcases deleteCancel_state req orderId s with hp | ⟨o, _, _, _, hp⟩
  · rw [hp]
  · rw [hp]; exact Orders.statusOf_setStatus_other _ _ _ _ h

theorem timers_deleteCancel (req : Req) (orderId : String) (s : State) :
    (deleteCancel req orderId s).2.timers = s.timers := by
  rcases deleteCancel_state req orderId s with hp | ⟨o, _, _, _, hp⟩ <;> rw [hp]

/-- Once an order is cancelled, no event changes its status. -/
theorem exec_keeps_cancelled (k : String) (s : State) (e : Event)
    (h : s.orders.statusOf k = some "cancelled") :
    (exec s e).orders.statusOf k = some "cancelled" := by
  obtain ⟨o, ho, hst⟩ := Orders.statusOf_some _ _ _ h
  cases e with
  | fire t =>
    simp only [exec]
    by_cases hk : k = t.orderId
    · subst hk
      rw [progress_cancelled _ _ _ o ho hst]; exact h
    · rw [statusOf_progress_other _ _ _ _ hk]; exact h
  | track req id => simp only [exec]; rw [getTrack_state]; exact h
  | cancel req id =>
    simp only [exec]
    by_cases hk : k = id
    · subst hk
      rcases deleteCancel_state req k s with hp | ⟨o', ho', _, _, hp⟩
      · rw [hp]; exact h
      · rw [hp]; exact Orders.statusOf_setStatus_self _ _ _ o' ho'
    · rw [statusOf_deleteCancel_other _ _ _ _ hk]; exact h

theorem run_keeps_cancelled (k : String) (es : List Event) (s : State)
    (h : s.orders.statusOf k = some "cancelled") :
    (run s es).orders.statusOf k = some "cancelled" := by
  induction es generalizing s with
  | nil => exact h
  | cons e es ih => exact ih (exec s e) (exec_keeps_cancelled k s e h)

end Hateoas

namespace Rest

theorem rest_getTrack_state (orderId : String) (s : State) : (getTrack orderId s).2 = s := by
  unfold getTrack
  rw [Orders.has_eq_isSome]
  cases h : s.orders.get orderId <;> simp

theorem deleteOrder_state (orderId : String) (s : State) :
    (deleteOrder orderId s).2 = s ∨
    (∃ o, s.orders.get orderId = some o ∧ o.status ≠ "ready" ∧ o.status ≠ "delivered" ∧
      (deleteOrder orderId s).2 =
        { s with orders := s.orders.setStatus orderId "cancelled" }) := by
  unfold deleteOrder
  rw [Orders.has_eq_isSome]
  cases h : s.orders.get orderId with
  | none => left; simp
  | some o =>
    by_cases hs : o.status = "ready" ∨ o.status = "delivered"
    · left; rcases hs with hs | hs <;> simp [hs]
    · push_neg at hs
      right
      exact ⟨o, rfl, hs.1, hs.2, by simp [hs.1, hs.2]⟩

theorem progress_eq (orders : Orders) (orderId target : String) :
    progress orders orderId target = Hateoas.progress orders orderId target := rfl

theorem rest_exec_keeps_cancelled (k : String) (s : State) (e : Event)
    (h : s.orders.statusOf k = some "cancelled") :
    (exec s e).orders.statusOf k = some "cancelled" := by
  obtain ⟨o, ho, hst⟩ := Orders.statusOf_some _ _ _ h
  cases e with
  | fire t =>
    simp only [exec, progress_eq]
    by_cases hk : k = t.orderId
    · subst hk
      rw [Hateoas.progress_cancelled _ _ _ o ho hst]; exact h
    · rw [Hateoas.statusOf_progress_other _ _ _ _ hk]; exact h
  | track req id => simp only [exec]; rw [rest_getTrack_state]; exact h
  | cancel req id =>
    simp only [exec]
    rcases deleteOrder_state id s with hp | ⟨o', ho', _, _, hp⟩
    · rw [hp]; exact h
    · rw [hp]
      by_cases hk : k = id
      · subst hk; exact Orders.statusOf_setStatus_self _ _ _ o' ho'
      · show (s.orders.setStatus id "cancelled").statusOf k = _
        rw [Orders.statusOf_setStatus_other _ _ _ _ hk]; exact h

theorem rest_run_keeps_cancelled (k : String) (es : List Event) (s : State)
    (h : s.orders.statusOf k = some "cancelled") :
    (run s es).orders.statusOf k = some "cancelled" := by
  induction es generalizing s with
  | nil => exact h
  | cons e es ih => exact ih (exec s e) (rest_exec_keeps_cancelled k s e h)

end Rest

/-- C3: for a stored order whose status is cancelled, a progression callback for it
with any target (so each of preparing, baking, ready) leaves the store unchanged, the
order's status included, in the HATEOAS and in the classic server; and after any
sequence of callbacks, track requests and cancel requests, for any orders, the order is
still cancelled, in both servers. -/
theorem cancelled_order_stays_cancelled (orders : Orders) (orderId : String) (o : Order)
    (h : orders.get orderId = some o) (hs : o.status = "cancelled") :
    (∀ target, Hateoas.progress orders orderId target = orders ∧
      Rest.progress orders orderId target = orders ∧
      (Hateoas.progress orders orderId target).statusOf orderId = some "cancelled" ∧
      (Rest.progress orders orderId target).statusOf orderId = some "cancelled") ∧
    (∀ timers es,
      (Hateoas.run { orders := orders, timers := timers } es).orders.statusOf orderId =
        some "cancelled" ∧
      (Rest.run { orders := orders, timers := timers } es).orders.statusOf orderId =
        some "cancelled") := by
  have hst : orders.statusOf orderId = some "cancelled" := by
    simp [Orders.statusOf_eq, h, hs]
  refine ⟨fun target => ?_, fun timers es => ⟨?_, ?_⟩⟩
  · rw [Rest.progress_eq, Hateoas.progress_cancelled orders orderId target o h hs]
    exact ⟨rfl, rfl, hst, hst⟩
  · exact Hateoas.run_keeps_cancelled orderId es _ hst
  · exact Rest.rest_run_keeps_cancelled orderId es _ hst

theorem cancelled_order_stays_cancelled_witness :
    ((sampleState "cancelled").orders.get "o1" = some (sampleOrder "cancelled") ∧
      (sampleOrder "cancelled").status = "cancelled") ∧
    (Hateoas.progress (sampleState "cancelled").orders "o1" "preparing" =
        (sampleState "cancelled").orders ∧
      Rest.progress (sampleState "cancelled").orders "o1" "ready" =
        (sampleState "cancelled").orders) ∧
    ((Hateoas.run (sampleState "cancelled")
        [.fire ⟨10000, "o1", "preparing"⟩, .track sampleReq "o1", .cancel sampleReq "o1",
         .fire ⟨30000, "o1", "ready"⟩]).orders.statusOf "o1" = some "cancelled" ∧
      (Rest.run (sampleState "cancelled")
        [.fire ⟨20000, "o1", "baking"⟩, .cancel sampleReq "o1",
         .track sampleReq "o1"]).orders.statusOf "o1" = some "cancelled") :=
  have T := cancelled_order_stays_cancelled (sampleState "cancelled").orders "o1"
    (sampleOrder "cancelled") (by decide) (by decide)
  ⟨⟨by decide, by decide⟩, ⟨(T.1 "preparing").1, (T.1 "ready").2.1⟩,
   T.2 [] [.fire ⟨10000, "o1", "preparing"⟩, .track sampleReq "o1", .cancel sampleReq "o1",
           .fire ⟨30000, "o1", "ready"⟩] |>.1,
   T.2 [] [.fire ⟨20000, "o1", "baking"⟩, .cancel sampleReq "o1", .track sampleReq "o1"] |>.2⟩

namespace Hateoas

theorem postOrder_of_created (req : Req) (pizzaId quantity : JSVal) (newId : String) (now : Nat)
    (s : State) (h : (postOrder req pizzaId quantity newId now s).1.status = 201) :
    ∃ pizza : Pizza, (postOrder req pizzaId quantity newId now s).2 =
      { orders := s.orders.set newId
          { orderId := newId, pizzaId := pizzaId, pizzaName := pizza.name,
            quantity := quantity, status := "pending", createdAt := now },
        timers := s.timers ++ scheduled newId } := by
  by_cases hg : (!pizzaId.truthy || !quantity.truthy || !quantity.isInteger || quantity.leZero) = true
  · rw [postOrder_invalid req pizzaId quantity newId now s hg] at h
    simp at h
  · have hg' := Bool.eq_false_iff.mpr hg
    cases hf : pizzas.find? (fun p => JSVal.strictEqNat p.id pizzaId) with
    | none =>
      rw [postOrder_unknown req pizzaId quantity newId now s hg' hf] at h
      simp at h
    | some pizza =>
      exact ⟨pizza, by rw [postOrder_created req pizzaId quantity newId now s pizza hg' hf]⟩

theorem trace_eq_cons (s : State) (es : List Event) : ∃ tl, trace s es = s :: tl := by
  cases es with
  | nil => exact ⟨[], rfl⟩
  | cons e es => exact ⟨trace (exec s e) es, rfl⟩

end Hateoas

theorem pendingFor_fire_other (s : State) (t : Timer) (k : String) (h : t.orderId ≠ k) :
    pendingFor (exec s (.fire t)) k = pendingFor s k := by
  simp only [pendingFor, exec]
  rw [← List.erase_filter]
  apply List.erase_of_not_mem
  simp [List.mem_filter, h]

theorem pendingFor_fire_self (s : State) (t : Timer) (k : String) :
    pendingFor (exec s (.fire t)) k = (pendingFor s k).erase t := by
  simp only [pendingFor, exec]
  rw [← List.erase_filter]

/-- If the pending callbacks of a stored, not cancelled order start with `t0` and every
later one has a larger delay, then the only callback of that order that may run is
`t0`; running it assigns `t0.target` and leaves the later ones pending. -/
theorem fire_head (k : String) (s : State) (t t0 : Timer) (rest : List Timer) (st : String)
    (hst : s.orders.statusOf k = some st) (hne : st ≠ "cancelled")
    (hp : pendingFor s k = t0 :: rest) (hrest : ∀ u ∈ rest, t0.delay < u.delay)
    (hid : t.orderId = k) (hc : canFire s t = true) :
    t = t0 ∧ (exec s (.fire t)).orders.statusOf k = some t0.target ∧
      pendingFor (exec s (.fire t)) k = rest := by
  simp only [canFire, Bool.and_eq_true, decide_eq_true_eq, List.all_eq_true] at hc
  obtain ⟨hmem, hmin⟩ := hc
  have ht0 : t0 ∈ pendingFor s k := by rw [hp]; exact List.mem_cons_self _ _
  have ht0' : t0 ∈ s.timers ∧ t0.orderId = k := by
    simpa [pendingFor, List.mem_filter] using ht0
  have htm : t ∈ pendingFor s k := by
    simp [pendingFor, List.mem_filter, hmem, hid]
  have heq : t = t0 := by
    rw [hp, List.mem_cons] at htm
    rcases htm with h | h
    · exact h
    · exfalso
      have h1 := hrest t h
      have h2 := hmin t0 ht0'.1 (by rw [ht0'.2, hid])
      omega
  subst heq
  refine ⟨rfl, ?_, ?_⟩
  · obtain ⟨o, ho, hos⟩ := Orders.statusOf_some _ _ _ hst
    simp only [exec]
    rw [hid]
    have hne' : o.status ≠ "cancelled" := by rw [hos]; exact hne
    have hpr : progress s.orders k t.target = s.orders.setStatus k t.target := by
      unfold progress
      rw [ho]
      simp [hne']
    rw [hpr]
    exact Orders.statusOf_setStatus_self _ _ _ o ho
  · rw [pendingFor_fire_self, hp]
    simp

theorem legalStep_refl (k : String) (a b : State) (st : String)
    (ha : a.orders.statusOf k = some st) (hb : b.orders.statusOf k = some st) :
    LegalStep k a b :=
  ⟨st, st, ha, hb, Or.inl rfl, fun _ => rfl⟩

/-- One event, with callbacks running in delay order, makes a legal step and keeps the
lifecycle invariant. -/
theorem lifecycle_step (k : String) (s : State) (e : Event) (hinv : Lifecycle k s)
    (hfire : ∀ t, e = .fire t → canFire s t = true) :
    LegalStep k s (exec s e) ∧ Lifecycle k (exec s e) := by
  obtain ⟨st, hst, hcase⟩ := hinv
  cases e with
  | track req id =>
    have hs : exec s (.track req id) = s := getTrack_state req id s
    rw [hs]
    exact ⟨legalStep_refl k s s st hst hst, st, hst, hcase⟩
  | cancel req id =>
    by_cases hk : k = id
    · subst hk
      rcases deleteCancel_state req k s with hp | ⟨o, ho, hr, hd, hp⟩
      · simp only [exec]
        rw [hp]
        exact ⟨legalStep_refl k s s st hst hst, st, hst, hcase⟩
      · have hos : o.status = st := by
          have : s.orders.statusOf k = some o.status := by simp [Orders.statusOf_eq, ho]
          rw [hst] at this
          exact (Option.some.inj this).symm
        rw [hos] at hr hd
        have hnew : (exec s (.cancel req k)).orders.statusOf k = some "cancelled" := by
          simp only [exec]
          rw [hp]
          exact Orders.statusOf_setStatus_self _ _ _ o ho
        refine ⟨⟨st, "cancelled", hst, hnew, ?_, ?_⟩, "cancelled", hnew, Or.inl rfl⟩
        · rcases hcase with h | ⟨h, _⟩ | ⟨h, _⟩ | ⟨h, _⟩ | ⟨h, _⟩
          · exact Or.inl h
          · right; rw [h]; decide
          · right; rw [h]; decide
          · right; rw [h]; decide
          · exact absurd h hr
        · intro hf
          simp only [finalStatuses, List.mem_cons, List.mem_singleton, List.not_mem_nil,
            or_false] at hf
          rcases hf with h | h | h
          · exact absurd h hr
          · exact absurd h hd
          · exact h.symm
    · have hnew : (exec s (.cancel req id)).orders.statusOf k = some st := by
        simp only [exec]
        rw [statusOf_deleteCancel_other _ _ _ _ hk]; exact hst
      have hpend : pendingFor (exec s (.cancel req id)) k = pendingFor s k := by
        simp only [exec, pendingFor]
        rw [timers_deleteCancel]
      refine ⟨legalStep_refl k _ _ st hst hnew, st, hnew, ?_⟩
      rw [hpend]; exact hcase
  | fire t =>
    have hc := hfire t rfl
    by_cases hk : t.orderId = k
    · rcases hcase with h | ⟨h, hp⟩ | ⟨h, hp⟩ | ⟨h, hp⟩ | ⟨h, hp⟩
      · have hnew := exec_keeps_cancelled k s (.fire t) (h ▸ hst)
        exact ⟨legalStep_refl k _ _ "cancelled" (h ▸ hst) hnew, "cancelled", hnew, Or.inl rfl⟩
      · obtain ⟨_, hnew, hpend⟩ := fire_head k s t ⟨10000, k, "preparing"⟩ _ st hst
          (by rw [h]; decide) hp (by simp) hk hc
        refine ⟨⟨st, "preparing", hst, hnew, ?_, ?_⟩, "preparing", hnew, ?_⟩
        · right; rw [h]; decide
        · rw [h]; intro hf; exact absurd hf (by decide)
        · right; right; left; exact ⟨rfl, by rw [hpend]; rfl⟩
      · obtain ⟨_, hnew, hpend⟩ := fire_head k s t ⟨20000, k, "baking"⟩ _ st hst
          (by rw [h]; decide) hp (by simp) hk hc
        refine ⟨⟨st, "baking", hst, hnew, ?_, ?_⟩, "baking", hnew, ?_⟩
        · right; rw [h]; decide
        · rw [h]; intro hf; exact absurd hf (by decide)
        · right; right; right; left; exact ⟨rfl, by rw [hpend]; rfl⟩
      · obtain ⟨_, hnew, hpend⟩ := fire_head k s t ⟨30000, k, "ready"⟩ _ st hst
          (by rw [h]; decide) hp (by simp) hk hc
        refine ⟨⟨st, "ready", hst, hnew, ?_, ?_⟩, "ready", hnew, ?_⟩
        · right; rw [h]; decide
        · rw [h]; intro hf; exact absurd hf (by decide)
        · right; right; right; right; exact ⟨rfl, by rw [hpend]⟩
      · exfalso
        simp only [canFire, Bool.and_eq_true, decide_eq_true_eq] at hc
        have : t ∈ pendingFor s k := by simp [pendingFor, List.mem_filter, hc.1, hk]
        rw [hp] at this
        exact List.not_mem_nil _ this
    · have hnew : (exec s (.fire t)).orders.statusOf k = some st := by
        simp only [exec]
        rw [statusOf_progress_other _ _ _ _ (fun h => hk h.symm)]; exact hst
      refine ⟨legalStep_refl k _ _ st hst hnew, st, hnew, ?_⟩
      rw [pendingFor_fire_other s t k hk]; exact hcase

theorem lifecycle_trace (k : String) (es : List Event) (s : State) (hinv : Lifecycle k s)
    (hord : inDelayOrder s es = true) :
    List.Chain' (LegalStep k) (trace s es) := by
  induction es generalizing s with
  | nil => simp [trace]
  | cons e es ih =>
    have hfire : ∀ t, e = .fire t → canFire s t = true := by
      intro t ht
      subst ht
      simp only [inDelayOrder, Bool.and_eq_true] at hord
      exact hord.1
    have hnext : inDelayOrder (exec s e) es = true := by
      cases e with
      | fire t =>
        simp only [inDelayOrder, Bool.and_eq_true] at hord
        exact hord.2
      | track req id => simpa [inDelayOrder] using hord
      | cancel req id => simpa [inDelayOrder] using hord
    obtain ⟨hleg, hinv'⟩ := lifecycle_step k s e hinv hfire
    obtain ⟨tl, htl⟩ := trace_eq_cons (exec s e) es
    have := ih (exec s e) hinv' hnext
    simp only [trace]
    rw [htl] at this ⊢
    exact List.Chain'.cons hleg this

theorem lifecycle_after_create (req : Req) (pizzaId quantity : JSVal) (newId : String)
    (now : Nat) (s : State)
    (hc : (postOrder req pizzaId quantity newId now s).1.status = 201)
    (hfresh : ∀ t ∈ s.timers, t.orderId ≠ newId) :
    Lifecycle newId (postOrder req pizzaId quantity newId now s).2 := by
  obtain ⟨pizza, hp⟩ := postOrder_of_created req pizzaId quantity newId now s hc
  rw [hp]
  refine ⟨"pending", ?_, Or.inr (Or.inl ⟨rfl, ?_⟩)⟩
  · simp [Orders.statusOf_eq, Orders.get_set_self]
  · simp only [pendingFor, List.filter_append]
    have : s.timers.filter (fun t => decide (t.orderId = newId)) = [] := by
      rw [List.filter_eq_nil_iff]
      intro t ht
      simpa using hfresh t ht
    rw [this]
    simp [scheduled]

/-- C2: take an order just created by the create handler (answer 201) under an id that
no earlier pending callback refers to. In every run made of callbacks that run in delay
order, track requests and cancel requests, for any orders, each step leaves the order
stored and either keeps its status or changes it by one of pending→preparing,
preparing→baking, baking→ready, pending/preparing/baking→cancelled; and a status among
ready, delivered, cancelled is never changed by a step. -/
theorem status_changes_follow_lifecycle (req : Req) (pizzaId quantity : JSVal)
    (newId : String) (now : Nat) (s : State) (es : List Event)
    (hc : (postOrder req pizzaId quantity newId now s).1.status = 201)
    (hfresh : ∀ t ∈ s.timers, t.orderId ≠ newId)
    (hord : inDelayOrder (postOrder req pizzaId quantity newId now s).2 es = true) :
    List.Chain' (LegalStep newId) (trace (postOrder req pizzaId quantity newId now s).2 es) :=
  lifecycle_trace newId es _ (lifecycle_after_create req pizzaId quantity newId now s hc hfresh)
    hord

theorem status_changes_follow_lifecycle_witness :
    ((postOrder sampleReq (.num 1) (.num 2) "o2" 7 emptyState).1.status = 201 ∧
      inDelayOrder (postOrder sampleReq (.num 1) (.num 2) "o2" 7 emptyState).2 sampleRun = true) ∧
    (trace (postOrder sampleReq (.num 1) (.num 2) "o2" 7 emptyState).2 sampleRun).map
        (fun a => a.orders.statusOf "o2") =
      [some "pending", some "pending", some "preparing", some "baking", some "cancelled",
       some "cancelled"] ∧
    List.Chain' (LegalStep "o2")
      (trace (postOrder sampleReq (.num 1) (.num 2) "o2" 7 emptyState).2 sampleRun) :=
  ⟨⟨by decide, by decide⟩, by decide,
   status_changes_follow_lifecycle sampleReq (.num 1) (.num 2) "o2" 7 emptyState sampleRun
     (by decide) (by intro t ht; cases ht) (by decide)⟩

/-! ## Reading is free of effects; the two servers agree -/

/-- C11: the track handler is read-only and idempotent: for every state, order id and
request it returns the state it was given, so a second track request with the same
request data gets the very same response (status code, order status, link relations),
whether or not the id is stored. -/
theorem track_is_read_only (req : Req) (orderId : String) (s : State) :
    (getTrack req orderId s).2 = s ∧
    getTrack req orderId (getTrack req orderId s).2 = getTrack req orderId s ∧
    (getTrack req orderId (getTrack req orderId s).2).1.status =
      (getTrack req orderId s).1.status ∧
    (getTrack req orderId (getTrack req orderId s).2).1.body.orderStatus =
      (getTrack req orderId s).1.body.orderStatus ∧
    rels (getTrack req orderId (getTrack req orderId s).2).1.body.links =
      rels (getTrack req orderId s).1.body.links := by
  have h := getTrack_state req orderId s
  rw [h]
  exact ⟨rfl, rfl, rfl, rfl, rfl⟩

namespace Rest

theorem postOrder_state_eq (req : Req) (pizzaId quantity : JSVal) (newId : String) (now : Nat)
    (s : State) :
    (Rest.postOrder pizzaId quantity newId now s).1.status =
      (Hateoas.postOrder req pizzaId quantity newId now s).1.status ∧
    (Rest.postOrder pizzaId quantity newId now s).2 =
      (Hateoas.postOrder req pizzaId quantity newId now s).2 ∧
    (Rest.postOrder pizzaId quantity newId now s).1.body.orderStatus =
      (Hateoas.postOrder req pizzaId quantity newId now s).1.body.orderStatus ∧
    (Rest.postOrder pizzaId quantity newId now s).1.body.orderId =
      (Hateoas.postOrder req pizzaId quantity newId now s).1.body.orderId := by
  unfold Rest.postOrder Hateoas.postOrder
  by_cases hg : (!pizzaId.truthy || !quantity.truthy || !quantity.isInteger || quantity.leZero) = true
  · rw [if_pos hg, if_pos hg]
    exact ⟨rfl, rfl, rfl, rfl⟩
  · rw [if_neg hg, if_neg hg]
    cases pizzas.find? (fun p => JSVal.strictEqNat p.id pizzaId) with
    | none => exact ⟨rfl, rfl, rfl, rfl⟩
    | some pizza => exact ⟨rfl, rfl, rfl, rfl⟩

theorem getTrack_eq (req : Req) (orderId : String) (s : State) :
    (Rest.getTrack orderId s).1.status = (Hateoas.getTrack req orderId s).1.status ∧
    (Rest.getTrack orderId s).2 = (Hateoas.getTrack req orderId s).2 ∧
    (Rest.getTrack orderId s).1.body.orderStatus =
      (Hateoas.getTrack req orderId s).1.body.orderStatus ∧
    (WellKeyed s.orders → (Rest.getTrack orderId s).1.body.orderId =
      (Hateoas.getTrack req orderId s).1.body.orderId) := by
  cases h : s.orders.get orderId with
  | none =>
    rw [Hateoas.getTrack_missing req orderId s h]
    unfold Rest.getTrack
    rw [Orders.has_eq_isSome, h]
    exact ⟨rfl, rfl, rfl, fun _ => rfl⟩
  | some o =>
    rw [Hateoas.getTrack_found req orderId s o h]
    unfold Rest.getTrack
    rw [Orders.has_eq_isSome, h]
    refine ⟨rfl, rfl, rfl, fun hk => ?_⟩
    simp [Rest.Body.orderId, Hateoas.Body.orderId, hk orderId o h]

theorem deleteOrder_eq (req : Req) (orderId : String) (s : State) :
    (Rest.deleteOrder orderId s).1.status = (Hateoas.deleteCancel req orderId s).1.status ∧
    (Rest.deleteOrder orderId s).2 = (Hateoas.deleteCancel req orderId s).2 ∧
    (Rest.deleteOrder orderId s).1.body.orderStatus =
      (Hateoas.deleteCancel req orderId s).1.body.orderStatus ∧
    (WellKeyed s.orders → (Rest.deleteOrder orderId s).1.body.orderId =
      (Hateoas.deleteCancel req orderId s).1.body.orderId) := by
  cases h : s.orders.get orderId with
  | none =>
    rw [Hateoas.deleteCancel_missing req orderId s h]
    unfold Rest.deleteOrder
    rw [Orders.has_eq_isSome, h]
    exact ⟨rfl, rfl, rfl, fun _ => rfl⟩
  | some o =>
    by_cases hs : o.status = "ready" ∨ o.status = "delivered"
    · rw [Hateoas.deleteCancel_rejected req orderId s o h hs]
      unfold Rest.deleteOrder
      rw [Orders.has_eq_isSome, h]
      rcases hs with hs | hs <;> simp [hs, Rest.Body.orderId, Hateoas.Body.orderId,
        Rest.Body.orderStatus, Hateoas.Body.orderStatus]
    · push_neg at hs
      rw [Hateoas.deleteCancel_done req orderId s o h hs.1 hs.2]
      unfold Rest.deleteOrder
      rw [Orders.has_eq_isSome, h]
      refine ⟨by simp [hs.1, hs.2], by simp [hs.1, hs.2], by
        simp [hs.1, hs.2, Rest.Body.orderStatus, Hateoas.Body.orderStatus], fun hk => ?_⟩
      simp [hs.1, hs.2, Rest.Body.orderId, Hateoas.Body.orderId, hk orderId o h]

theorem handle_eq (req : Req) (op : Op) (s : State) :
    (Rest.handle op s).1.status = (Hateoas.handle req op s).1.status ∧
    (Rest.handle op s).2 = (Hateoas.handle req op s).2 ∧
    (Rest.handle op s).1.body.orderStatus = (Hateoas.handle req op s).1.body.orderStatus ∧
    (WellKeyed s.orders → (Rest.handle op s).1.body.orderId =
      (Hateoas.handle req op s).1.body.orderId) := by
  cases op with
  | create pizzaId quantity newId now =>
    obtain ⟨h1, h2, h3, h4⟩ := postOrder_state_eq req pizzaId quantity newId now s
    exact ⟨h1, h2, h3, fun _ => h4⟩
  | track orderId => exact getTrack_eq req orderId s
  | cancel orderId => exact deleteOrder_eq req orderId s

theorem act_eq (s : State) (a : Action) : Rest.act s a = Hateoas.act s a := by
  cases a with
  | request req op => exact (handle_eq req op s).2.1
  | fire t => rfl

theorem reach_eq (as : List Action) : Rest.reach as = Hateoas.reach as := by
  unfold Rest.reach Hateoas.reach
  have : Rest.act = Hateoas.act := by
    funext s a; exact act_eq s a
  rw [this]

end Rest

/-! ### Every record is stored under its own identifier -/

theorem Orders.get_setStatus_missing (m : Orders) (k st : String) (h : m.get k = none) :
    (m.setStatus k st).get k = none := by
  induction m with
  | nil => rfl
  | cons hd tl ih =>
    obtain ⟨k1, v1⟩ := hd
    simp only [Orders.get] at h ih ⊢
    by_cases h1 : k1 = k
    · subst h1; simp [List.lookup] at h
    · have h2 : (k == k1) = false := by simpa using fun h => h1 h.symm
      simp only [List.lookup, h2] at h
      simp [Orders.setStatus, h1, List.lookup, h2, ih h]

theorem wellKeyed_setStatus (m : Orders) (k st : String) (h : WellKeyed m) :
    WellKeyed (m.setStatus k st) := by
  intro k' o' ho'
  by_cases hk : k' = k
  · subst hk
    cases hg : m.get k' with
    | none =>
      rw [Orders.get_setStatus_missing m k' st hg] at ho'; cases ho'
    | some o =>
      rw [Orders.get_setStatus_self m k' st o hg] at ho'
      cases ho'
      exact h k' o hg
  · rw [Orders.get_setStatus_other m k k' st hk] at ho'
    exact h k' o' ho'

theorem wellKeyed_set (m : Orders) (k : String) (v : Order) (h : WellKeyed m)
    (hv : v.orderId = k) : WellKeyed (m.set k v) := by
  intro k' o' ho'
  by_cases hk : k' = k
  · subst hk
    rw [Orders.get_set_self] at ho'
    cases ho'
    exact hv
  · rw [Orders.get_set_other m k k' v hk] at ho'
    exact h k' o' ho'

theorem wellKeyed_progress (m : Orders) (k target : String) (h : WellKeyed m) :
    WellKeyed (progress m k target) := by
  rcases progress_cases m k target with hp | ⟨o, _, _, hp⟩
  · rw [hp]; exact h
  · rw [hp]; exact wellKeyed_setStatus m k target h

theorem wellKeyed_handle (req : Req) (op : Op) (s : State) (h : WellKeyed s.orders) :
    WellKeyed (handle req op s).2.orders := by
  cases op with
  | create pizzaId quantity newId now =>
    simp only [handle]
    by_cases hg : (!pizzaId.truthy || !quantity.truthy || !quantity.isInteger ||
        quantity.leZero) = true
    · rw [postOrder_invalid req pizzaId quantity newId now s hg]; exact h
    · have hg' := Bool.eq_false_iff.mpr hg
      cases hf : pizzas.find? (fun p => JSVal.strictEqNat p.id pizzaId) with
      | none => rw [postOrder_unknown req pizzaId quantity newId now s hg' hf]; exact h
      | some pizza =>
        rw [postOrder_created req pizzaId quantity newId now s pizza hg' hf]
        exact wellKeyed_set _ _ _ h rfl
  | track orderId =>
    simp only [handle]
    rw [getTrack_state]; exact h
  | cancel orderId =>
    simp only [handle]
    rcases deleteCancel_state req orderId s with hp | ⟨o, _, _, _, hp⟩
    · rw [hp]; exact h
    · rw [hp]; exact wellKeyed_setStatus _ _ _ h

theorem wellKeyed_act (s : State) (a : Action) (h : WellKeyed s.orders) :
    WellKeyed (act s a).orders := by
  cases a with
  | request req op => exact wellKeyed_handle req op s h
  | fire t => exact wellKeyed_progress _ _ _ h

theorem wellKeyed_foldl (as : List Action) (s : State) (h : WellKeyed s.orders) :
    WellKeyed (as.foldl act s).orders := by
  induction as generalizing s with
  | nil => exact h
  | cons a as ih => exact ih (act s a) (wellKeyed_act s a h)

/-- Every state the server reaches from the empty store keeps each record under its
own identifier. -/
theorem wellKeyed_reach (as : List Action) : WellKeyed (reach as).orders := by
  apply wellKeyed_foldl
  intro k o ho
  simp [emptyState, Orders.get] at ho

/-- A classic body carries `orderId` and `status` exactly when the status code is 200
or 201. -/
theorem Rest.handle_success (op : Op) (s : State) :
    ((Rest.handle op s).1.body.orderId.isSome =
      decide ((Rest.handle op s).1.status = 200 ∨ (Rest.handle op s).1.status = 201)) ∧
    ((Rest.handle op s).1.body.orderStatus.isSome =
      decide ((Rest.handle op s).1.status = 200 ∨ (Rest.handle op s).1.status = 201)) := by
  cases op with
  | create pizzaId quantity newId now =>
    simp only [Rest.handle, Rest.postOrder]
    by_cases hg : (!pizzaId.truthy || !quantity.truthy || !quantity.isInteger ||
        quantity.leZero) = true
    · rw [if_pos hg]; exact ⟨rfl, rfl⟩
    · rw [if_neg hg]
      cases pizzas.find? (fun p => JSVal.strictEqNat p.id pizzaId) with
      | none => exact ⟨rfl, rfl⟩
      | some pizza => exact ⟨rfl, rfl⟩
  | track orderId =>
    cases h : s.orders.get orderId <;>
      simp [Rest.handle, Rest.getTrack, Orders.has_eq_isSome, h, Rest.Body.orderId,
        Rest.Body.orderStatus]
  | cancel orderId =>
    cases h : s.orders.get orderId with
    | none =>
      simp [Rest.handle, Rest.deleteOrder, Orders.has_eq_isSome, h, Rest.Body.orderId,
        Rest.Body.orderStatus]
    | some o =>
      by_cases hs : o.status = "ready" ∨ o.status = "delivered"
      · rcases hs with hs | hs <;>
          simp [Rest.handle, Rest.deleteOrder, Orders.has_eq_isSome, h, hs, Rest.Body.orderId,
            Rest.Body.orderStatus]
      · push_neg at hs
        simp [Rest.handle, Rest.deleteOrder, Orders.has_eq_isSome, h, hs.1, hs.2,
          Rest.Body.orderId, Rest.Body.orderStatus]

/-- C12: for every state and every input of an operation (create, track, cancel), the
classic handler and the HATEOAS handler return the same status code, leave the same
state (for create: given the same generated id and date) and report the same order
status, and the classic body carries `orderId` and `status` exactly on success (200 or
201); the two servers therefore reach the same states; and in every state a server
reaches from the empty store, the `orderId` of the classic body equals the `orderId`
of the `order` object of the HATEOAS body. A classic body has no `links` field by
construction of `Rest.Body`. -/
theorem classic_and_hateoas_agree :
    (∀ (req : Req) (op : Op) (s : State),
      (Rest.handle op s).1.status = (Hateoas.handle req op s).1.status ∧
      (Rest.handle op s).2 = (Hateoas.handle req op s).2 ∧
      (Rest.handle op s).1.body.orderStatus = (Hateoas.handle req op s).1.body.orderStatus ∧
      (Rest.handle op s).1.body.orderId.isSome =
        decide ((Rest.handle op s).1.status = 200 ∨ (Rest.handle op s).1.status = 201) ∧
      (Rest.handle op s).1.body.orderStatus.isSome =
        decide ((Rest.handle op s).1.status = 200 ∨ (Rest.handle op s).1.status = 201)) ∧
    (∀ as : List Action, Rest.reach as = Hateoas.reach as) ∧
    (∀ (as : List Action) (req : Req) (op : Op),
      (Rest.handle op (Hateoas.reach as)).1.body.orderId =
        (Hateoas.handle req op (Hateoas.reach as)).1.body.orderId) := by
  refine ⟨fun req op s => ?_, Rest.reach_eq, fun as req op => ?_⟩
  · obtain ⟨h1, h2, h3, _⟩ := Rest.handle_eq req op s
    exact ⟨h1, h2, h3, (Rest.handle_success op s).1, (Rest.handle_success op s).2⟩
  · exact (Rest.handle_eq req op _).2.2.2 (wellKeyed_reach as)

/-! ## Generated URLs -/

theorem port_host : "localhost:" ++ toString PORT = "localhost:3001" := by decide

theorem getFullUrl_eq_spec (req : Req) (path : String) :
    getFullUrl req path = urlBySpec req path := by
  unfold getFullUrl urlBySpec protocolBySpec
  simp only [port_host]
  have hp : "http://localhost:" ++ toString PORT = "http://localhost:3001" := by decide
  rw [hp]
  by_cases h1 : req.nodeEnv = some "production"
  · cases hf : req.forwardedProto with
    | none => simp [h1, headerTruthy, showHeader]
    | some h =>
      by_cases hh : h = "" <;> simp [h1, headerTruthy, showHeader, hh]
  · by_cases h2 : req.host = some "localhost:3001"
    · simp [h1, h2]
    · cases hf : req.forwardedProto with
      | none => simp [h1, h2, headerTruthy, showHeader]
      | some h =>
        by_cases hh : h = "" <;> simp [h1, h2, headerTruthy, showHeader, hh]

theorem protocolBySpec_ne_empty (req : Req) : protocolBySpec req ≠ "" := by
  unfold protocolBySpec
  cases req.forwardedProto with
  | none =>
    by_cases hp : req.protocol = "" <;> simp [hp]
  | some h =>
    by_cases hh : h = "" <;> by_cases hp : req.protocol = "" <;> simp [hh, hp]

/-- A generated URL is a non-empty protocol, `://`, a host and then the path. -/
theorem getFullUrl_form (req : Req) (path : String) :
    ∃ proto host, proto ≠ "" ∧ getFullUrl req path = proto ++ "://" ++ host ++ path := by
  rw [getFullUrl_eq_spec]
  unfold urlBySpec
  by_cases h : req.nodeEnv ≠ some "production" ∧ req.host = some "localhost:3001"
  · rw [if_pos h]
    exact ⟨"http", "localhost:3001", by decide, by
      rw [show "http" ++ "://" ++ "localhost:3001" = "http://localhost:3001" from by decide]⟩
  · rw [if_neg h]
    exact ⟨protocolBySpec req, showHeader req.host, protocolBySpec_ne_empty req, rfl⟩

theorem getFullUrl_ne_path (req : Req) (path : String) : getFullUrl req path ≠ path := by
  obtain ⟨proto, host, hne, h⟩ := getFullUrl_form req path
  intro heq
  rw [heq] at h
  have hl := congrArg String.length h
  simp only [String.length_append] at hl
  have h3 : "://".length = 3 := by decide
  omega

theorem path_menu : "/v1/menu" = "/" ++ "v1/menu" := by decide
theorem path_order : "/v1/order" = "/" ++ "v1/order" := by decide
theorem path_start : "/v1/start" = "/" ++ "v1/start" := by decide
theorem path_track (k : String) : "/v1/track/" ++ k = "/" ++ ("v1/track/" ++ k) := by
  rw [← String.append_assoc]; rfl
theorem path_cancel (k : String) :
    "/v1/order/" ++ k ++ "/cancel" = "/" ++ ("v1/order/" ++ k ++ "/cancel") := by
  rw [← String.append_assoc, ← String.append_assoc]; rfl

theorem menuLink_href (req : Req) : ∃ rest, (menuLink req).href = getFullUrl req ("/" ++ rest) :=
  ⟨"v1/menu", by rw [← path_menu]; rfl⟩

/-- Every link of a response to create, track or cancel targets `getFullUrl` of a path
that begins with `/`. -/
theorem handle_links_absolute (req : Req) (op : Op) (s : State) :
    ∀ l ∈ (handle req op s).1.body.links, ∃ rest, l.href = getFullUrl req ("/" ++ rest) := by
  have hm := menuLink_href req
  cases op with
  | create pizzaId quantity newId now =>
    simp only [handle]
    by_cases hg : (!pizzaId.truthy || !quantity.truthy || !quantity.isInteger ||
        quantity.leZero) = true
    · rw [postOrder_invalid req pizzaId quantity newId now s hg]
      simpa [Body.links] using hm
    · have hg' := Bool.eq_false_iff.mpr hg
      cases hf : pizzas.find? (fun p => JSVal.strictEqNat p.id pizzaId) with
      | none =>
        rw [postOrder_unknown req pizzaId quantity newId now s hg' hf]
        simpa [Body.links] using hm
      | some pizza =>
        rw [postOrder_created req pizzaId quantity newId now s pizza hg' hf]
        simp only [Body.links, List.mem_cons, List.mem_singleton, List.not_mem_nil, or_false]
        rintro l (rfl | rfl | rfl | rfl)
        · exact ⟨"v1/order", by rw [← path_order]⟩
        · exact ⟨"v1/track/" ++ newId, by rw [← path_track]⟩
        · exact ⟨"v1/order/" ++ newId ++ "/cancel", by rw [← path_cancel]⟩
        · exact hm
  | track orderId =>
    simp only [handle]
    cases h : s.orders.get orderId with
    | none =>
      rw [getTrack_missing req orderId s h]
      simpa [Body.links] using hm
    | some o =>
      rw [getTrack_found req orderId s o h]
      by_cases hc : ["ready", "delivered", "cancelled"].contains o.status = true
      · simp only [hc, Bool.not_true, Bool.false_eq_true, ↓reduceIte, Body.links, List.mem_cons,
          List.mem_singleton, List.not_mem_nil, or_false]
        rintro l (rfl | rfl)
        · exact ⟨"v1/track/" ++ orderId, by rw [← path_track]⟩
        · exact hm
      · simp only [hc, Bool.not_false, ↓reduceIte, Body.links, List.mem_cons,
          List.mem_singleton, List.not_mem_nil, or_false]
        rintro l (rfl | rfl | rfl)
        · exact ⟨"v1/track/" ++ orderId, by rw [← path_track]⟩
        · exact hm
        · exact ⟨"v1/order/" ++ orderId ++ "/cancel", by rw [← path_cancel]⟩
  | cancel orderId =>
    simp only [handle]
    cases h : s.orders.get orderId with
    | none =>
      rw [deleteCancel_missing req orderId s h]
      simpa [Body.links] using hm
    | some o =>
      by_cases hs : o.status = "ready" ∨ o.status = "delivered"
      · rw [deleteCancel_rejected req orderId s o h hs]
        simp only [Body.links, List.mem_cons, List.mem_singleton, List.not_mem_nil, or_false]
        rintro l (rfl | rfl)
        · exact ⟨"v1/track/" ++ orderId, by rw [← path_track]⟩
        · exact hm
      · push_neg at hs
        rw [deleteCancel_done req orderId s o h hs.1 hs.2]
        simp only [Body.links, List.mem_cons, List.mem_singleton, List.not_mem_nil, or_false]
        rintro l (rfl | rfl)
        · exact hm
        · exact ⟨"v1/order", by rw [← path_order]⟩

/-- C13: every link of every HATEOAS response (entry point, menu, create, track,
cancel) targets `getFullUrl req p` for a path `p` that begins with `/`; `getFullUrl`
is the URL the specification describes (`urlBySpec`: the local development URL when
`NODE_ENV` is not `production` and the Host header is exactly `localhost:3001`,
otherwise protocol, `://`, Host header and path, the protocol being the
`x-forwarded-proto` header if set, else `req.protocol`, else `https`); and the result
always is a non-empty protocol, `://`, a host and then the path, so it is never the
bare path. -/
theorem every_href_is_absolute (req : Req) :
    (∀ l ∈ (getStart req).body.links, ∃ rest, l.href = getFullUrl req ("/" ++ rest)) ∧
    (∀ l ∈ (getMenu req).body.links, ∃ rest, l.href = getFullUrl req ("/" ++ rest)) ∧
    (∀ (op : Op) (s : State), ∀ l ∈ (handle req op s).1.body.links,
      ∃ rest, l.href = getFullUrl req ("/" ++ rest)) ∧
    (∀ path : String, getFullUrl req path = urlBySpec req path ∧
      (∃ proto host, proto ≠ "" ∧ getFullUrl req path = proto ++ "://" ++ host ++ path) ∧
      getFullUrl req path ≠ path) := by
  refine ⟨?_, ?_, fun op s => handle_links_absolute req op s, fun path =>
    ⟨getFullUrl_eq_spec req path, getFullUrl_form req path, getFullUrl_ne_path req path⟩⟩
  · simp only [getStart, Body.links, List.mem_singleton]
    rintro l rfl
    exact ⟨"v1/menu", by rw [← path_menu]⟩
  · simp only [getMenu, Body.links, List.mem_cons, List.mem_singleton, List.not_mem_nil,
      or_false]
    rintro l (rfl | rfl | rfl)
    · exact ⟨"v1/menu", by rw [← path_menu]⟩
    · exact ⟨"v1/order", by rw [← path_order]⟩
    · exact ⟨"v1/start", by rw [← path_start]⟩

/-! ## Callbacks, repeated cancels and validation order -/

theorem postOrder_timers (req : Req) (pizzaId quantity : JSVal) (newId : String) (now : Nat)
    (s : State) :
    ((postOrder req pizzaId quantity newId now s).1.status = 201 ∧
      (postOrder req pizzaId quantity newId now s).2.timers =
        s.timers ++ [ ⟨10000, newId, "preparing"⟩, ⟨20000, newId, "baking"⟩,
                      ⟨30000, newId, "ready"⟩ ]) ∨
    (((postOrder req pizzaId quantity newId now s).1.status = 400 ∨
        (postOrder req pizzaId quantity newId now s).1.status = 404) ∧
      (postOrder req pizzaId quantity newId now s).2.timers = s.timers) := by
  by_cases hg : (!pizzaId.truthy || !quantity.truthy || !quantity.isInteger ||
      quantity.leZero) = true
  · rw [postOrder_invalid req pizzaId quantity newId now s hg]
    exact Or.inr ⟨Or.inl rfl, rfl⟩
  · have hg' := Bool.eq_false_iff.mpr hg
    cases hf : pizzas.find? (fun p => JSVal.strictEqNat p.id pizzaId) with
    | none =>
      rw [postOrder_unknown req pizzaId quantity newId now s hg' hf]
      exact Or.inr ⟨Or.inr rfl, rfl⟩
    | some pizza =>
      rw [postOrder_created req pizzaId quantity newId now s pizza hg' hf]
      exact Or.inl ⟨rfl, rfl⟩

/-- C17: in both servers a create request either succeeds (201) and the create handler
itself registers exactly three callbacks for the new order, with delays 10000, 20000
and 30000 ms and targets preparing, baking and ready, or it is rejected (400 or 404)
and registers none; and a callback that runs registers no callback: the pending
callbacks afterwards are the earlier ones without the one that ran. -/
theorem create_schedules_three_callbacks (req : Req) (pizzaId quantity : JSVal)
    (newId : String) (now : Nat) (s : State) (t : Timer) :
    (((Hateoas.postOrder req pizzaId quantity newId now s).1.status = 201 ∧
        (Hateoas.postOrder req pizzaId quantity newId now s).2.timers =
          s.timers ++ [ ⟨10000, newId, "preparing"⟩, ⟨20000, newId, "baking"⟩,
                        ⟨30000, newId, "ready"⟩ ]) ∨
      (((Hateoas.postOrder req pizzaId quantity newId now s).1.status = 400 ∨
          (Hateoas.postOrder req pizzaId quantity newId now s).1.status = 404) ∧
        (Hateoas.postOrder req pizzaId quantity newId now s).2.timers = s.timers)) ∧
    (((Rest.postOrder pizzaId quantity newId now s).1.status = 201 ∧
        (Rest.postOrder pizzaId quantity newId now s).2.timers =
          s.timers ++ [ ⟨10000, newId, "preparing"⟩, ⟨20000, newId, "baking"⟩,
                        ⟨30000, newId, "ready"⟩ ]) ∨
      (((Rest.postOrder pizzaId quantity newId now s).1.status = 400 ∨
          (Rest.postOrder pizzaId quantity newId now s).1.status = 404) ∧
        (Rest.postOrder pizzaId quantity newId now s).2.timers = s.timers)) ∧
    (Hateoas.act s (.fire t)).timers = s.timers.erase t ∧
    (Rest.act s (.fire t)).timers = s.timers.erase t ∧
    List.Sublist (Hateoas.act s (.fire t)).timers s.timers := by
  have hH := postOrder_timers req pizzaId quantity newId now s
  obtain ⟨h1, h2, _, _⟩ := Rest.postOrder_state_eq req pizzaId quantity newId now s
  refine ⟨hH, ?_, rfl, rfl, List.erase_sublist t s.timers⟩
  rw [h1, h2]
  exact hH

/-- C18: a progression callback only checks that the order is not cancelled: for a
stored order whose status is anything but cancelled, the callback with target `t`
(in either server) assigns `t` whatever the current status is, so the order then has
status `t`. -/
theorem callback_overwrites_any_open_status (orders : Orders) (orderId target : String)
    (o : Order) (h : orders.get orderId = some o) (hs : o.status ≠ "cancelled") :
    Hateoas.progress orders orderId target = orders.setStatus orderId target ∧
    Rest.progress orders orderId target = orders.setStatus orderId target ∧
    (Hateoas.progress orders orderId target).get orderId = some { o with status := target } ∧
    (Hateoas.progress orders orderId target).statusOf orderId = some target ∧
    (Rest.progress orders orderId target).statusOf orderId = some target := by
  have hp : Hateoas.progress orders orderId target = orders.setStatus orderId target := by
    unfold Hateoas.progress
    rw [h]
    simp [hs]
  rw [Rest.progress_eq, hp]
  exact ⟨rfl, rfl, Orders.get_setStatus_self orders orderId target o h,
    Orders.statusOf_setStatus_self orders orderId target o h,
    Orders.statusOf_setStatus_self orders orderId target o h⟩

theorem callback_overwrites_any_open_status_witness :
    ((sampleState "ready").orders.get "o1" = some (sampleOrder "ready") ∧
      (sampleOrder "ready").status ≠ "cancelled") ∧
    (Hateoas.progress (sampleState "ready").orders "o1" "preparing").statusOf "o1" =
      some "preparing" ∧
    (Rest.progress (sampleState "baking").orders "o1" "preparing").statusOf "o1" =
      some "preparing" ∧
    (Hateoas.progress (sampleState "delivered").orders "o1" "ready").statusOf "o1" =
      some "ready" :=
  ⟨⟨by decide, by decide⟩,
   (callback_overwrites_any_open_status (sampleState "ready").orders "o1" "preparing"
      (sampleOrder "ready") (by decide) (by decide)).2.2.2.1,
   (callback_overwrites_any_open_status (sampleState "baking").orders "o1" "preparing"
      (sampleOrder "baking") (by decide) (by decide)).2.2.2.2,
   (callback_overwrites_any_open_status (sampleState "delivered").orders "o1" "ready"
      (sampleOrder "delivered") (by decide) (by decide)).2.2.2.1⟩

theorem Rest.deleteOrder_done (orderId : String) (s : State) (o : Order)
    (h : s.orders.get orderId = some o) (h1 : o.status ≠ "ready") (h2 : o.status ≠ "delivered") :
    Rest.deleteOrder orderId s =
      ({ status := 200, body := .order orderId "cancelled" },
       { s with orders := s.orders.setStatus orderId "cancelled" }) := by
  unfold Rest.deleteOrder
  rw [Orders.has_eq_isSome, h]
  simp [h1, h2]

/-- C19: cancelling a stored order that is already cancelled is not rejected: both
servers answer 200 with status cancelled (HATEOAS links exactly `menu`, `order`) and
leave the state unchanged; hence for a stored order that can be cancelled (status
neither ready nor delivered) a second cancel returns the same response and the same
state as the first one. -/
theorem cancel_is_idempotent (req : Req) (orderId : String) (s : State) (o : Order)
    (h : s.orders.get orderId = some o) :
    (o.status = "cancelled" →
      (deleteCancel req orderId s).1.status = 200 ∧
      (deleteCancel req orderId s).1.body.orderStatus = some "cancelled" ∧
      rels (deleteCancel req orderId s).1.body.links = ["menu", "order"] ∧
      (deleteCancel req orderId s).2 = s ∧
      (Rest.deleteOrder orderId s).1.status = 200 ∧
      (Rest.deleteOrder orderId s).1.body.orderStatus = some "cancelled" ∧
      (Rest.deleteOrder orderId s).2 = s) ∧
    (o.status ≠ "ready" ∧ o.status ≠ "delivered" →
      deleteCancel req orderId (deleteCancel req orderId s).2 = deleteCancel req orderId s ∧
      Rest.deleteOrder orderId (Rest.deleteOrder orderId s).2 = Rest.deleteOrder orderId s) := by
  refine ⟨fun hc => ?_, fun hs => ?_⟩
  · have h1 : o.status ≠ "ready" := by rw [hc]; decide
    have h2 : o.status ≠ "delivered" := by rw [hc]; decide
    have hsame : s.orders.setStatus orderId "cancelled" = s.orders := by
      have := Orders.setStatus_same s.orders orderId o h
      rwa [hc] at this
    rw [deleteCancel_done req orderId s o h h1 h2, Rest.deleteOrder_done orderId s o h h1 h2,
      hsame]
    simp [rels, Body.links, Body.orderStatus, Rest.Body.orderStatus, menuLink]
  · obtain ⟨h1, h2⟩ := hs
    have hget : (s.orders.setStatus orderId "cancelled").get orderId =
        some { o with status := "cancelled" } :=
      Orders.get_setStatus_self s.orders orderId "cancelled" o h
    have hsame : (s.orders.setStatus orderId "cancelled").setStatus orderId "cancelled" =
        s.orders.setStatus orderId "cancelled" :=
      Orders.setStatus_same _ orderId _ hget
    rw [deleteCancel_done req orderId s o h h1 h2, Rest.deleteOrder_done orderId s o h h1 h2]
    constructor
    · rw [deleteCancel_done req orderId _ { o with status := "cancelled" } hget
        (by simp) (by simp)]
      simp [hsame]
    · rw [Rest.deleteOrder_done orderId _ { o with status := "cancelled" } hget
        (by simp) (by simp)]
      simp [hsame]

theorem cancel_is_idempotent_witness :
    ((deleteCancel sampleReq "o1" (sampleState "cancelled")).1.status = 200 ∧
      (deleteCancel sampleReq "o1" (sampleState "cancelled")).1.body.orderStatus =
        some "cancelled" ∧
      rels (deleteCancel sampleReq "o1" (sampleState "cancelled")).1.body.links =
        ["menu", "order"] ∧
      (deleteCancel sampleReq "o1" (sampleState "cancelled")).2 = sampleState "cancelled" ∧
      (Rest.deleteOrder "o1" (sampleState "cancelled")).1.status = 200 ∧
      (Rest.deleteOrder "o1" (sampleState "cancelled")).1.body.orderStatus = some "cancelled" ∧
      (Rest.deleteOrder "o1" (sampleState "cancelled")).2 = sampleState "cancelled") ∧
    (deleteCancel sampleReq "o1" (deleteCancel sampleReq "o1" (sampleState "pending")).2 =
        deleteCancel sampleReq "o1" (sampleState "pending") ∧
      Rest.deleteOrder "o1" (Rest.deleteOrder "o1" (sampleState "pending")).2 =
        Rest.deleteOrder "o1" (sampleState "pending")) :=
  ⟨(cancel_is_idempotent sampleReq "o1" (sampleState "cancelled") (sampleOrder "cancelled")
      (by decide)).1 (by decide),
   (cancel_is_idempotent sampleReq "o1" (sampleState "pending") (sampleOrder "pending")
      (by decide)).2 ⟨by decide, by decide⟩⟩

/-- The validation test of the create handlers is true exactly when `pizzaId` is falsy
or the quantity is not a positive integer. -/
theorem JSVal.guard_iff (v w : JSVal) :
    (!v.truthy || !w.truthy || !w.isInteger || w.leZero) = true ↔
      (v.truthy = false ∨ ¬ ∃ n : Nat, 0 < n ∧ w = .num n) := by
  constructor
  · intro hg
    by_contra hcon
    push_neg at hcon
    obtain ⟨hv, n, hn, rfl⟩ := hcon
    have hv' : v.truthy = true := by simpa using hv
    rw [JSVal.guard_posInt v n hv' hn] at hg
    cases hg
  · rintro (hv | hw)
    · simp [hv]
    · exact JSVal.guard_not_posInt v w (fun n hn hq => hw ⟨n, hn, hq⟩)

/-- C20: in the create handler (of either server) validation comes first and goes by
truthiness: the answer is 400 exactly when `pizzaId` is falsy or the quantity is falsy,
not an integer or not positive (that is, not a positive integer), whether or not
`pizzaId` names a seeded pizza; and it is 404 exactly when `pizzaId` is truthy, the
quantity is a positive integer and no seeded pizza has an id strictly equal to
`pizzaId`. A missing value, `null`, `0` and the empty string are falsy. -/
theorem validation_precedes_lookup (req : Req) (pizzaId quantity : JSVal) (newId : String)
    (now : Nat) (s : State) :
    ((postOrder req pizzaId quantity newId now s).1.status = 400 ↔
      (pizzaId.truthy = false ∨ quantity.truthy = false ∨ quantity.isInteger = false ∨
        quantity.leZero = true)) ∧
    ((quantity.truthy = false ∨ quantity.isInteger = false ∨ quantity.leZero = true) ↔
      ¬ ∃ n : Nat, 0 < n ∧ quantity = .num n) ∧
    ((postOrder req pizzaId quantity newId now s).1.status = 404 ↔
      (pizzaId.truthy = true ∧ (∃ n : Nat, 0 < n ∧ quantity = .num n) ∧
        ∀ p ∈ pizzas, pizzaId ≠ .num p.id)) ∧
    (Rest.postOrder pizzaId quantity newId now s).1.status =
      (postOrder req pizzaId quantity newId now s).1.status ∧
    (JSVal.undefined.truthy = false ∧ JSVal.null.truthy = false ∧
      (JSVal.num 0).truthy = false ∧ (JSVal.str "").truthy = false) := by
  have hq : (quantity.truthy = false ∨ quantity.isInteger = false ∨ quantity.leZero = true) ↔
      ¬ ∃ n : Nat, 0 < n ∧ quantity = .num n := by
    have hb := JSVal.guard_iff (.bool true) quantity
    have e : (!(JSVal.bool true).truthy || !quantity.truthy || !quantity.isInteger ||
        quantity.leZero) = (!quantity.truthy || !quantity.isInteger || quantity.leZero) := rfl
    rw [e] at hb
    have hfalse : ((JSVal.bool true).truthy = false ∨ ¬ ∃ n : Nat, 0 < n ∧ quantity = .num n) ↔
        ¬ ∃ n : Nat, 0 < n ∧ quantity = .num n := by
      constructor
      · rintro (h | h)
        · cases h
        · exact h
      · exact Or.inr
    rw [← hb.trans hfalse]
    simp only [Bool.or_eq_true, Bool.not_eq_true', or_assoc]
  have hfind : pizzas.find? (fun p => JSVal.strictEqNat p.id pizzaId) = none ↔
      ∀ p ∈ pizzas, pizzaId ≠ .num p.id := by
    constructor
    · intro hf p hp heq
      rw [List.find?_eq_none] at hf
      have := hf p hp
      rw [heq] at this
      simp [JSVal.strictEqNat] at this
    · exact JSVal.find_unknown pizzaId
  refine ⟨?_, hq, ?_, (Rest.postOrder_state_eq req pizzaId quantity newId now s).1,
    by decide⟩
  · by_cases hg : (!pizzaId.truthy || !quantity.truthy || !quantity.isInteger ||
        quantity.leZero) = true
    · rw [postOrder_invalid req pizzaId quantity newId now s hg]
      simp only [true_iff]
      simpa [or_assoc] using hg
    · have hg' := Bool.eq_false_iff.mpr hg
      have hneg : ¬ (pizzaId.truthy = false ∨ quantity.truthy = false ∨
          quantity.isInteger = false ∨ quantity.leZero = true) := by
        intro hc; apply hg; simpa [or_assoc] using hc
      cases hf : pizzas.find? (fun p => JSVal.strictEqNat p.id pizzaId) with
      | none =>
        rw [postOrder_unknown req pizzaId quantity newId now s hg' hf]
        simp only [hneg, iff_false]; decide
      | some pizza =>
        rw [postOrder_created req pizzaId quantity newId now s pizza hg' hf]
        simp only [hneg, iff_false]; decide
  · by_cases hg : (!pizzaId.truthy || !quantity.truthy || !quantity.isInteger ||
        quantity.leZero) = true
    · rw [postOrder_invalid req pizzaId quantity newId now s hg]
      have := (JSVal.guard_iff pizzaId quantity).mp hg
      constructor
      · intro h; cases h
      · rintro ⟨ht, hn, _⟩
        rcases this with h | h
        · rw [ht] at h; cases h
        · exact absurd hn h
    · have hg' := Bool.eq_false_iff.mpr hg
      have hnot := (not_congr (JSVal.guard_iff pizzaId quantity)).mp hg
      push_neg at hnot
      have ht : pizzaId.truthy = true := by simpa using hnot.1
      cases hf : pizzas.find? (fun p => JSVal.strictEqNat p.id pizzaId) with
      | none =>
        rw [postOrder_unknown req pizzaId quantity newId now s hg' hf]
        exact ⟨fun _ => ⟨ht, hnot.2, hfind.mp hf⟩, fun _ => rfl⟩
      | some pizza =>
        rw [postOrder_created req pizzaId quantity newId now s pizza hg' hf]
        constructor
        · intro h; cases h
        · rintro ⟨_, _, hall⟩
          rw [hfind.mpr hall] at hf
          cases hf

/-! ## The client's link table and link following -/

namespace Client

theorem lookup_assign (t : LinkTable) (k k' : String) (v : StoredLink) :
    (t.assign k v).lookup k' = if k' = k then some v else t.lookup k' := by
  induction t with
  | nil =>
    by_cases h : k' = k
    · subst h; simp [LinkTable.assign, List.lookup]
    · have : (k' == k) = false := by simpa using h
      simp [LinkTable.assign, List.lookup, this, h]
  | cons hd tl ih =>
    obtain ⟨k1, v1⟩ := hd
    by_cases h1 : k1 = k
    · subst h1
      by_cases h : k' = k1
      · subst h; simp [LinkTable.assign, List.lookup]
      · have : (k' == k1) = false := by simpa using h
        simp [LinkTable.assign, List.lookup, this, h]
    · by_cases h : k' = k
      · subst h
        have : (k' == k1) = false := by simpa using fun h => h1 h.symm
        simp [LinkTable.assign, List.lookup, h1, this, ih]
      · by_cases h2 : k' = k1
        · subst h2; simp [LinkTable.assign, List.lookup, h1, h]
        · have : (k' == k1) = false := by simpa using h2
          simp [LinkTable.assign, List.lookup, h1, this, ih, h]

/-- Assigning a property changes the own property of another plain name only if it is
the assigned name. -/
theorem setProp_own_lookup (t : AvailableLinks) (k rel : String) (v : StoredLink)
    (hrel : rel ≠ "__proto__") :
    (t.setProp k v).own.lookup rel = if rel = k then some v else t.own.lookup rel := by
  unfold AvailableLinks.setProp
  by_cases hc : k = "__proto__" ∧ t.own.lookup k = none
  · rw [if_pos hc]
    have : rel ≠ k := by rw [hc.1]; exact hrel
    simp [this]
  · rw [if_neg hc]
    exact lookup_assign t.own k rel v

theorem setProp_noProtoKey (t : AvailableLinks) (k : String) (v : StoredLink)
    (h : t.own.lookup "__proto__" = none) :
    (t.setProp k v).own.lookup "__proto__" = none := by
  unfold AvailableLinks.setProp
  by_cases hk : k = "__proto__"
  · have hc : k = "__proto__" ∧ t.own.lookup k = none := ⟨hk, by rw [hk]; exact h⟩
    rw [if_pos hc]; exact h
  · have hc : ¬ (k = "__proto__" ∧ t.own.lookup k = none) := fun hc => hk hc.1
    rw [if_neg hc]
    show (t.own.assign k v).lookup "__proto__" = none
    rw [lookup_assign, if_neg (fun h' => hk h'.symm)]
    exact h

theorem setProp_proto (t : AvailableLinks) (k : String) (v : StoredLink)
    (h : t.own.lookup "__proto__" = none) :
    (t.setProp k v).proto = if k = "__proto__" then some v else t.proto := by
  unfold AvailableLinks.setProp
  by_cases hk : k = "__proto__"
  · have hc : k = "__proto__" ∧ t.own.lookup k = none := ⟨hk, by rw [hk]; exact h⟩
    rw [if_pos hc, if_pos hk]
  · have hc : ¬ (k = "__proto__" ∧ t.own.lookup k = none) := fun hc => hk hc.1
    rw [if_neg hc, if_neg hk]

theorem foldl_noProtoKey (ls : List RawLink) (acc : AvailableLinks)
    (h : acc.own.lookup "__proto__" = none) :
    (ls.foldl (fun t link => t.setProp link.rel (toStored link)) acc).own.lookup "__proto__" =
      none := by
  induction ls generalizing acc with
  | nil => exact h
  | cons l ls ih => exact ih _ (setProp_noProtoKey acc l.rel (toStored l) h)

/-- The own property of a plain name after storing the links `ls`: the last link of
`ls` with that relation wins, and the object before is consulted only if there is
none. -/
theorem foldl_own_lookup (ls : List RawLink) (acc : AvailableLinks) (rel : String)
    (hrel : rel ≠ "__proto__") :
    (ls.foldl (fun t link => t.setProp link.rel (toStored link)) acc).own.lookup rel =
      match ls.reverse.find? (fun l => decide (l.rel = rel)) with
      | some l => some (toStored l)
      | none => acc.own.lookup rel := by
  induction ls generalizing acc with
  | nil => simp
  | cons l ls ih =>
    simp only [List.foldl_cons, List.reverse_cons, List.find?_append]
    rw [ih]
    cases hf : ls.reverse.find? (fun l => decide (l.rel = rel)) with
    | some l' => simp
    | none =>
      rw [setProp_own_lookup acc l.rel rel (toStored l) hrel]
      by_cases hl : l.rel = rel
      · simp [hl]
      · have : ¬ rel = l.rel := fun h => hl h.symm
        simp [hl, this]

/-- The prototype after storing the links `ls`: the last link named `__proto__`, if
any. -/
theorem foldl_proto (ls : List RawLink) (acc : AvailableLinks)
    (h : acc.own.lookup "__proto__" = none) :
    (ls.foldl (fun t link => t.setProp link.rel (toStored link)) acc).proto =
      match ls.reverse.find? (fun l => decide (l.rel = "__proto__")) with
      | some l => some (toStored l)
      | none => acc.proto := by
  induction ls generalizing acc with
  | nil => simp
  | cons l ls ih =>
    simp only [List.foldl_cons, List.reverse_cons, List.find?_append]
    rw [ih _ (setProp_noProtoKey acc l.rel (toStored l) h)]
    cases hf : ls.reverse.find? (fun l => decide (l.rel = "__proto__")) with
    | some l' => simp
    | none =>
      rw [setProp_proto acc l.rel (toStored l) h]
      by_cases hl : l.rel = "__proto__" <;> simp [hl]

theorem find_last_none_iff (ls : List RawLink) (rel : String) :
    ls.reverse.find? (fun l => decide (l.rel = rel)) = none ↔ rel ∉ ls.map (fun l => l.rel) := by
  rw [List.find?_eq_none]
  simp only [List.mem_reverse, decide_eq_true_eq, List.mem_map, not_exists, not_and]

theorem proto_names_mem : "__proto__" ∈ objectPrototypeNames := by decide

/-- A relation carried by a link of the array is looked up as the stored form of the
last such link, whatever its name. -/
theorem findLink_saveLinks_present (ls : List RawLink) (t : AvailableLinks) (rel : String)
    (l : RawLink) (h : ls.reverse.find? (fun l => decide (l.rel = rel)) = some l) :
    findLink (saveLinks (.array ls) t) rel = .link (toStored l) := by
  simp only [findLink, saveLinks, AvailableLinks.getProp]
  by_cases hrel : rel = "__proto__"
  · subst hrel
    rw [foldl_noProtoKey ls AvailableLinks.empty rfl, foldl_proto ls AvailableLinks.empty rfl, h]
    simp
  · rw [foldl_own_lookup ls AvailableLinks.empty rel hrel, h]

/-- A plain name that no link of the array carries is looked up as `undefined`, when
no link of the array is named `__proto__`. -/
theorem findLink_saveLinks_absent (ls : List RawLink) (t : AvailableLinks) (rel : String)
    (hls : "__proto__" ∉ ls.map (fun l => l.rel)) (hrel : rel ∉ objectPrototypeNames)
    (h : ls.reverse.find? (fun l => decide (l.rel = rel)) = none) :
    findLink (saveLinks (.array ls) t) rel = .undefined := by
  have hne : rel ≠ "__proto__" := fun he => hrel (he ▸ proto_names_mem)
  simp only [findLink, saveLinks, AvailableLinks.getProp]
  rw [foldl_own_lookup ls AvailableLinks.empty rel hne, h,
    foldl_proto ls AvailableLinks.empty rfl, (find_last_none_iff ls "__proto__").mpr hls]
  simp [AvailableLinks.empty, hrel]

theorem saveLinks_own_keys (ls : List RawLink) (t : AvailableLinks) (k : String)
    (hls : "__proto__" ∉ ls.map (fun l => l.rel)) :
    ((saveLinks (.array ls) t).own.lookup k).isSome = true ↔ k ∈ ls.map (fun l => l.rel) := by
  simp only [saveLinks]
  by_cases hk : k = "__proto__"
  · subst hk
    rw [foldl_noProtoKey ls AvailableLinks.empty rfl]
    simp only [Option.isSome_none, Bool.false_eq_true, false_iff]
    exact hls
  · rw [foldl_own_lookup ls AvailableLinks.empty k hk]
    cases hf : ls.reverse.find? (fun l => decide (l.rel = k)) with
    | none =>
      have := (find_last_none_iff ls k).mp hf
      simp [AvailableLinks.empty, this]
    | some l =>
      have : k ∈ ls.map (fun l => l.rel) := by
        by_contra hc
        rw [(find_last_none_iff ls k).mpr hc] at hf
        cases hf
      simp [this]

end Client

open Client

/-- C14 as stated fails. After the client has stored the links of the menu response, a
response without a `links` array, and a non-OK answer to the order submission whose
links are just `menu`, both leave `availableLinks` as it was: it still maps `order`,
which the new response does not offer, and in the second case it has no `menu`. And
after a response whose only link is `menu`, looking up `constructor` yields an
inherited member, not `undefined`; a link named `__proto__` is stored under no key. -/
theorem link_table_replaced_counterexample :
    findLink (afterTrack ⟨true, .falsy⟩
        (saveLinks (.array menuResponseLinks) AvailableLinks.empty)) "order" =
      .link ⟨"http://localhost:3001/v1/order", "POST", "Commander une pizza"⟩ ∧
    findLink (afterOrder ⟨false, .array errorResponseLinks⟩
        (saveLinks (.array menuResponseLinks) AvailableLinks.empty)) "order" =
      .link ⟨"http://localhost:3001/v1/order", "POST", "Commander une pizza"⟩ ∧
    "order" ∉ errorResponseLinks.map (fun l => l.rel) ∧
    findLink (afterOrder ⟨false, .array errorResponseLinks⟩
        (saveLinks (.array menuResponseLinks) AvailableLinks.empty)) "menu" = .undefined ∧
    findLink (saveLinks (.array errorResponseLinks) AvailableLinks.empty) "constructor" =
      .inherited "constructor" ∧
    "constructor" ∉ errorResponseLinks.map (fun l => l.rel) ∧
    (saveLinks (.array protoResponseLinks) AvailableLinks.empty).own = [] := by
  decide

/-- C14, amended: when the `links` field of a response is an array (and, for an order
submission, the response is OK), `availableLinks` afterwards does not depend on what
it was before, and every relation carried by a link of the array is looked up as the
href, method (`GET` if absent) and description (the relation name if absent) of the
last link with that relation. If moreover no link of the array is named `__proto__`,
the own keys are exactly the relations of the array, and for a name `rel` that is not
the name of a member every object inherits, `findLink(rel)` is a link exactly when the
array carries `rel`, and `undefined` otherwise. When the `links` field is missing or
not an array, or the answer to an order submission is not OK, `availableLinks` is left
as it was. -/
theorem link_table_after_response (ls : List RawLink) (links : LinksField)
    (t : AvailableLinks) (rel : String) (ok : Bool)
    (hls : "__proto__" ∉ ls.map (fun l => l.rel)) (hrel : rel ∉ objectPrototypeNames) :
    saveLinks (.array ls) t = saveLinks (.array ls) AvailableLinks.empty ∧
    (∀ (r : String) (l : RawLink), ls.reverse.find? (fun l => decide (l.rel = r)) = some l →
      findLink (saveLinks (.array ls) t) r = .link (toStored l)) ∧
    findLink (saveLinks (.array ls) t) rel =
      (match ls.reverse.find? (fun l => decide (l.rel = rel)) with
       | some l => .link (toStored l)
       | none => .undefined) ∧
    ((∃ l, findLink (saveLinks (.array ls) t) rel = .link l) ↔
      rel ∈ ls.map (fun l => l.rel)) ∧
    (∀ k : String, ((saveLinks (.array ls) t).own.lookup k).isSome = true ↔
      k ∈ ls.map (fun l => l.rel)) ∧
    saveLinks .falsy t = t ∧ saveLinks .notArray t = t ∧
    afterStart ⟨ok, links⟩ t = saveLinks links t ∧
    afterMenu ⟨ok, links⟩ t = saveLinks links t ∧
    afterTrack ⟨ok, links⟩ t = saveLinks links t ∧
    afterCancel ⟨ok, links⟩ t = saveLinks links t ∧
    afterOrder ⟨true, links⟩ t = saveLinks links t ∧
    afterOrder ⟨false, links⟩ t = t := by
  have hfind : findLink (saveLinks (.array ls) t) rel =
      (match ls.reverse.find? (fun l => decide (l.rel = rel)) with
       | some l => .link (toStored l)
       | none => .undefined) := by
    cases hf : ls.reverse.find? (fun l => decide (l.rel = rel)) with
    | some l => exact findLink_saveLinks_present ls t rel l hf
    | none => exact findLink_saveLinks_absent ls t rel hls hrel hf
  refine ⟨rfl, fun r l h => findLink_saveLinks_present ls t r l h, hfind, ?_,
    fun k => saveLinks_own_keys ls t k hls, rfl, rfl, rfl, rfl, rfl, rfl, rfl, rfl⟩
  rw [hfind]
  cases hf : ls.reverse.find? (fun l => decide (l.rel = rel)) with
  | some l =>
    have : rel ∈ ls.map (fun l => l.rel) := by
      by_contra hc
      rw [(find_last_none_iff ls rel).mpr hc] at hf
      cases hf
    simp [this]
  | none =>
    have := (find_last_none_iff ls rel).mp hf
    simp [this]

theorem link_table_after_response_witness :
    ("__proto__" ∉ menuResponseLinks.map (fun l => l.rel) ∧ "order" ∉ objectPrototypeNames ∧
      "track" ∉ objectPrototypeNames) ∧
    findLink (saveLinks (.array menuResponseLinks)
        (saveLinks (.array errorResponseLinks) AvailableLinks.empty)) "order" =
      .link ⟨"http://localhost:3001/v1/order", "POST", "Commander une pizza"⟩ ∧
    findLink (saveLinks (.array menuResponseLinks)
        (saveLinks (.array errorResponseLinks) AvailableLinks.empty)) "track" = .undefined ∧
    ((∃ l, findLink (saveLinks (.array menuResponseLinks)
        (saveLinks (.array errorResponseLinks) AvailableLinks.empty)) "order" = .link l) ↔
      "order" ∈ menuResponseLinks.map (fun l => l.rel)) :=
  ⟨⟨by decide, by decide, by decide⟩,
   (link_table_after_response menuResponseLinks .falsy
      (saveLinks (.array errorResponseLinks) AvailableLinks.empty) "order" true
      (by decide) (by decide)).2.2.1,
   (link_table_after_response menuResponseLinks .falsy
      (saveLinks (.array errorResponseLinks) AvailableLinks.empty) "track" true
      (by decide) (by decide)).2.2.1,
   (link_table_after_response menuResponseLinks .falsy
      (saveLinks (.array errorResponseLinks) AvailableLinks.empty) "order" true
      (by decide) (by decide)).2.2.2.1⟩

/-- C15 as stated fails: `followLink` on the `order` link issues no request, on a
`self` link while neither the track nor the menu page is active it issues none
either, on the `start` link it requests the entry point built from `API_URL` rather
than the link's href, and on a `cancel` link it uses DELETE whatever the link's
method. -/
theorem follow_link_uses_stored_link_counterexample :
    (followLink sampleBrowser "order"
      ⟨"http://localhost:3001/v1/order", "POST", "Commander une pizza"⟩).requests = [] ∧
    (followLink sampleBrowser "self"
      ⟨"http://localhost:3001/v1/order", "POST", "Passer une nouvelle commande"⟩).requests = [] ∧
    (followLink sampleBrowser "start"
      ⟨"https://demo-hypermedia.onrender.com/v1/start", "GET", "Accueil"⟩).requests =
        [("http://localhost:3001/v1/start", "GET")] ∧
    (followLink sampleBrowser "cancel"
      ⟨"http://localhost:3001/v1/order/o1/cancel", "POST", "Annuler"⟩).requests =
        [("http://localhost:3001/v1/order/o1/cancel", "DELETE")] := by
  decide

/-- C15, amended: `followLink` on `menu` and on `track` issues exactly one request, a
GET to the link's href; on `cancel` exactly one DELETE to the link's href if the user
confirms and none otherwise; on `self` a GET to the link's href if the track page or
the menu page is active and none otherwise; on `start` a GET to the entry point built
from `API_URL`; on `order` no request but an alert. The order link is followed by
`submitOrder`, which requests the stored href with the stored method. -/
theorem follow_link_requests (b : Browser) (link : StoredLink) (t : LinkTable)
    (pr : Option StoredLink) (p : Nat) (q : Int) :
    (followLink b "menu" link).requests = [(link.href, "GET")] ∧
    (followLink b "track" link).requests = [(link.href, "GET")] ∧
    (followLink b "cancel" link).requests =
      (if b.confirmAnswer then [(link.href, "DELETE")] else []) ∧
    (followLink b "self" link).requests =
      (if b.trackActive || b.menuActive then [(link.href, "GET")] else []) ∧
    (followLink b "start" link).requests = [(b.apiUrl ++ "/v1/start", "GET")] ∧
    followLink b "order" link =
      { requests := [], alerts := ["Action non prise en charge: order"] } ∧
    (submitOrder (some p) (some q) { own := ("order", link) :: t, proto := pr }).requests =
      (if q < 1 then [] else [(link.href, link.method)]) := by
  refine ⟨by simp [followLink, loadMenu], by simp [followLink, trackOrder], ?_, ?_,
    by simp [followLink, startApplication], by simp [followLink], ?_⟩
  · cases hc : b.confirmAnswer <;> simp [followLink, cancelOrder, hc]
  · cases h1 : b.trackActive <;> cases h2 : b.menuActive <;>
      simp [followLink, trackOrder, loadMenu, h1, h2]
  · by_cases hq : q < 1 <;>
      simp [submitOrder, findLink, AvailableLinks.getProp, List.lookup, Lookup.truthy, hq]

/-- C16 as stated fails: `constructor` and `toString` are no keys of the link table,
neither of the empty one nor after the menu response was stored, yet `findLink`
returns the member inherited from `Object.prototype`, a truthy value, not
`undefined`; and once a link named `__proto__` was stored, `findLink` of `href`, no
key either, returns that link's href. -/
theorem find_link_absent_counterexample :
    AvailableLinks.empty.own.lookup "constructor" = none ∧
    findLink AvailableLinks.empty "constructor" = .inherited "constructor" ∧
    (findLink AvailableLinks.empty "constructor").truthy = true ∧
    (saveLinks (.array menuResponseLinks) AvailableLinks.empty).own.lookup "toString" = none ∧
    findLink (saveLinks (.array menuResponseLinks) AvailableLinks.empty) "toString" =
      .inherited "toString" ∧
    (saveLinks (.array protoResponseLinks) AvailableLinks.empty).own.lookup "href" = none ∧
    findLink (saveLinks (.array protoResponseLinks) AvailableLinks.empty) "href" =
      .text "http://localhost:3001/v1/menu" := by
  decide

/-- C16, amended: for a relation name other than `menu`, `self`, `track`, `cancel` and
`start`, `followLink` (a total function: nothing is thrown) issues no request and
shows one alert, which names the relation; and `findLink(rel)` is `undefined` exactly
when `rel` is no own key of the link table and not the name of a member the table
inherits (a member of `Object.prototype`, or `href`, `method`, `description` once a
link named `__proto__` was stored); so it is `undefined` for every relation of the
link vocabulary that is absent from the table. -/
theorem unknown_relation_alerts :
    (∀ (b : Browser) (rel : String) (link : StoredLink),
      rel ∉ ["menu", "self", "track", "cancel", "start"] →
      followLink b rel link =
        { requests := [], alerts := ["Action non prise en charge: " ++ rel] }) ∧
    (∀ (t : AvailableLinks) (rel : String),
      findLink t rel = .undefined ↔ (t.own.lookup rel = none ∧ rel ∉ t.inheritedNames)) ∧
    (∀ (t : AvailableLinks) (rel : String),
      rel ∈ ["start", "menu", "order", "self", "track", "cancel"] →
      t.own.lookup rel = none → findLink t rel = .undefined) := by
  have hiff : ∀ (t : AvailableLinks) (rel : String),
      findLink t rel = .undefined ↔ (t.own.lookup rel = none ∧ rel ∉ t.inheritedNames) := by
    intro t rel
    simp only [findLink, AvailableLinks.getProp, AvailableLinks.inheritedNames]
    cases ho : t.own.lookup rel with
    | some l => simp
    | none =>
      cases hp : t.proto with
      | none => by_cases hm : rel ∈ objectPrototypeNames <;> simp [hm]
      | some p =>
        by_cases h1 : rel = "__proto__"
        · subst h1; simp [proto_names_mem]
        · by_cases h2 : rel = "href"
          · subst h2; simp
          · by_cases h3 : rel = "method"
            · subst h3; simp
            · by_cases h4 : rel = "description"
              · subst h4; simp
              · by_cases hm : rel ∈ objectPrototypeNames <;> simp [h1, h2, h3, h4, hm]
  refine ⟨fun b rel link h => ?_, hiff, fun t rel hv ho => ?_⟩
  · simp only [List.mem_cons, List.mem_singleton, List.not_mem_nil, or_false, not_or] at h
    obtain ⟨h1, h2, h3, h4, h5⟩ := h
    simp [followLink, h1, h2, h3, h4, h5]
  · rw [hiff]
    refine ⟨ho, ?_⟩
    simp only [List.mem_cons, List.mem_singleton, List.not_mem_nil, or_false] at hv
    have hall : ∀ r ∈ ["start", "menu", "order", "self", "track", "cancel"],
        r ∉ objectPrototypeNames ++ ["href", "method", "description"] := by decide
    have hr := hall rel (by
      simp only [List.mem_cons, List.mem_singleton, List.not_mem_nil, or_false]; exact hv)
    unfold AvailableLinks.inheritedNames
    cases t.proto with
    | none => exact fun hm => hr (List.mem_append_left _ hm)
    | some p => exact hr

theorem unknown_relation_alerts_witness :
    ("order" ∉ ["menu", "self", "track", "cancel", "start"] ∧
      "track" ∈ ["start", "menu", "order", "self", "track", "cancel"] ∧
      (saveLinks (.array errorResponseLinks) AvailableLinks.empty).own.lookup "track" = none) ∧
    followLink sampleBrowser "order" ⟨"http://localhost:3001/v1/order", "POST", "Commander"⟩ =
      { requests := [], alerts := ["Action non prise en charge: " ++ "order"] } ∧
    findLink (saveLinks (.array errorResponseLinks) AvailableLinks.empty) "track" =
      .undefined :=
  ⟨⟨by decide, by decide, by decide⟩,
   unknown_relation_alerts.1 sampleBrowser "order"
     ⟨"http://localhost:3001/v1/order", "POST", "Commander"⟩ (by decide),
   unknown_relation_alerts.2.2 (saveLinks (.array errorResponseLinks) AvailableLinks.empty)
     "track" (by decide) (by decide)⟩

/-! ## Frame properties of the store; the loading overlay -/

namespace Orders

theorem keys_setStatus (m : Orders) (k st : String) : (m.setStatus k st).keys = m.keys := by
  induction m with
  | nil => rfl
  | cons hd tl ih =>
    obtain ⟨k1, v1⟩ := hd
    simp only [keys] at ih
    by_cases hk : k1 = k
    · simp [setStatus, keys, hk]
    · simp [setStatus, keys, hk, ih]

theorem set_of_missing (m : Orders) (k : String) (v : Order) (h : m.get k = none) :
    m.set k v = m ++ [(k, v)] := by
  induction m with
  | nil => rfl
  | cons hd tl ih =>
    obtain ⟨k1, v1⟩ := hd
    simp only [get] at h ih
    by_cases hk : k1 = k
    · subst hk; simp [List.lookup] at h
    · have h2 : (k == k1) = false := by simpa using fun h => hk h.symm
      simp only [List.lookup, h2] at h
      simp [set, hk, ih h]

theorem keys_set_of_present (m : Orders) (k : String) (v o : Order) (h : m.get k = some o) :
    (m.set k v).keys = m.keys := by
  induction m with
  | nil => simp [get, List.lookup] at h
  | cons hd tl ih =>
    obtain ⟨k1, v1⟩ := hd
    simp only [get, keys] at h ih
    by_cases hk : k1 = k
    · subst hk; simp [set, keys]
    · have h2 : (k == k1) = false := by simpa using fun h => hk h.symm
      simp only [List.lookup, h2] at h
      simp [set, keys, hk, ih h]

end Orders

theorem keys_progress (m : Orders) (k target : String) :
    (progress m k target).keys = m.keys := by
  rcases progress_cases m k target with hp | ⟨o, _, _, hp⟩
  · rw [hp]
  · rw [hp, Orders.keys_setStatus]

theorem get_progress_other (m : Orders) (k target b : String) (h : b ≠ k) :
    (progress m k target).get b = m.get b := by
  rcases progress_cases m k target with hp | ⟨o, _, _, hp⟩
  · rw [hp]
  · rw [hp, Orders.get_setStatus_other m k b target h]

theorem keys_deleteCancel (req : Req) (k : String) (s : State) :
    (deleteCancel req k s).2.orders.keys = s.orders.keys := by
  rcases deleteCancel_state req k s with hp | ⟨o, _, _, _, hp⟩
  · rw [hp]
  · rw [hp]; exact Orders.keys_setStatus _ _ _

theorem get_deleteCancel_other (req : Req) (k b : String) (s : State) (h : b ≠ k) :
    (deleteCancel req k s).2.orders.get b = s.orders.get b := by
  rcases deleteCancel_state req k s with hp | ⟨o, _, _, _, hp⟩
  · rw [hp]
  · rw [hp]; exact Orders.get_setStatus_other _ _ _ _ h

/-- An action that is not a create generating the identifier `b` changes at most the
status of the record stored under `b`. -/
theorem act_changes_status_only (s : State) (x : Action) (b : String) (o : Order)
    (h : s.orders.get b = some o) (hx : x.generates b = false) :
    ∃ st, (act s x).orders.get b = some { o with status := st } := by
  have hsame : s.orders.get b = some { o with status := o.status } := by rw [h]
  cases x with
  | fire t =>
    simp only [act]
    rcases progress_cases s.orders t.orderId t.target with hp | ⟨o', _, _, hp⟩
    · rw [hp]; exact ⟨o.status, hsame⟩
    · rw [hp]
      by_cases hk : b = t.orderId
      · subst hk; exact ⟨t.target, Orders.get_setStatus_self _ _ _ o h⟩
      · rw [Orders.get_setStatus_other _ _ _ _ hk]; exact ⟨o.status, hsame⟩
  | request req op =>
    cases op with
    | track k =>
      simp only [act, handle]
      rw [getTrack_state]; exact ⟨o.status, hsame⟩
    | cancel k =>
      simp only [act, handle]
      rcases deleteCancel_state req k s with hp | ⟨o', _, _, _, hp⟩
      · rw [hp]; exact ⟨o.status, hsame⟩
      · rw [hp]
        by_cases hk : b = k
        · subst hk; exact ⟨"cancelled", Orders.get_setStatus_self _ _ _ o h⟩
        · refine ⟨o.status, ?_⟩
          show (s.orders.setStatus k "cancelled").get b = _
          rw [Orders.get_setStatus_other _ _ _ _ hk]; exact hsame
    | create pizzaId quantity newId now =>
      have hne : b ≠ newId := by
        intro hb
        simp [Action.generates, hb] at hx
      simp only [act, handle]
      by_cases hg : (!pizzaId.truthy || !quantity.truthy || !quantity.isInteger ||
          quantity.leZero) = true
      · rw [postOrder_invalid req pizzaId quantity newId now s hg]; exact ⟨o.status, hsame⟩
      · have hg' := Bool.eq_false_iff.mpr hg
        cases hf : pizzas.find? (fun p => JSVal.strictEqNat p.id pizzaId) with
        | none =>
          rw [postOrder_unknown req pizzaId quantity newId now s hg' hf]
          exact ⟨o.status, hsame⟩
        | some pizza =>
          rw [postOrder_created req pizzaId quantity newId now s pizza hg' hf]
          refine ⟨o.status, ?_⟩
          show (s.orders.set newId _).get b = _
          rw [Orders.get_set_other _ _ _ _ hne]; exact hsame

theorem run_changes_status_only (xs : List Action) (s : State) (b : String) (o : Order)
    (h : s.orders.get b = some o) (hx : ∀ x ∈ xs, x.generates b = false) :
    ∃ st, (xs.foldl act s).orders.get b = some { o with status := st } := by
  induction xs generalizing s o with
  | nil => exact ⟨o.status, h⟩
  | cons x xs ih =>
    obtain ⟨st, hst⟩ := act_changes_status_only s x b o h (hx x (List.mem_cons_self _ _))
    obtain ⟨st', hst'⟩ := ih (act s x) { o with status := st } hst
      (fun y hy => hx y (List.mem_cons_of_mem _ hy))
    exact ⟨st', hst'⟩

/-- C21: for distinct order ids `a ≠ b`, a cancel request for `a` and a progression
callback for `a` (in either server) leave the record stored under `b` and the keys of
the store as they are, and a track request leaves the whole state as it is; a
successful create generating `a` leaves `b`'s record as it is and stores the new
pending record under `a`, appending exactly one entry to an otherwise unchanged store
when `a` was not a key; and along any run of requests and callbacks in which no create
generates `b` again, the record under `b` keeps its orderId, pizzaId, pizzaName,
quantity and createdAt: only its status can differ. -/
theorem other_orders_untouched (s : State) (a b : String) (hab : a ≠ b) :
    (∀ req : Req, (deleteCancel req a s).2.orders.get b = s.orders.get b ∧
      (deleteCancel req a s).2.orders.keys = s.orders.keys ∧
      (deleteCancel req a s).2.timers = s.timers) ∧
    (∀ target : String, (Hateoas.progress s.orders a target).get b = s.orders.get b ∧
      (Hateoas.progress s.orders a target).keys = s.orders.keys ∧
      Rest.progress s.orders a target = Hateoas.progress s.orders a target) ∧
    (∀ (req : Req) (k : String), (getTrack req k s).2 = s) ∧
    (∀ (req : Req) (pizzaId quantity : JSVal) (now : Nat),
      (postOrder req pizzaId quantity a now s).1.status = 201 →
      (postOrder req pizzaId quantity a now s).2.orders.get b = s.orders.get b ∧
      ∃ r : Order, r.orderId = a ∧ r.pizzaId = pizzaId ∧ r.quantity = quantity ∧
        r.status = "pending" ∧ r.createdAt = now ∧
        (postOrder req pizzaId quantity a now s).2.orders.get a = some r ∧
        (s.orders.has a = false →
          (postOrder req pizzaId quantity a now s).2.orders = s.orders ++ [(a, r)]) ∧
        (s.orders.has a = true →
          (postOrder req pizzaId quantity a now s).2.orders.keys = s.orders.keys)) ∧
    (∀ (xs : List Action) (o : Order), s.orders.get b = some o →
      (∀ x ∈ xs, x.generates b = false) →
      ∃ st, (xs.foldl Hateoas.act s).orders.get b = some { o with status := st }) ∧
    (∀ x : Action, Rest.act s x = Hateoas.act s x) := by
  have hba : b ≠ a := fun h => hab h.symm
  refine ⟨fun req => ⟨get_deleteCancel_other req a b s hba, keys_deleteCancel req a s,
      timers_deleteCancel req a s⟩,
    fun target => ⟨get_progress_other s.orders a target b hba, keys_progress s.orders a target,
      Rest.progress_eq s.orders a target⟩,
    fun req k => getTrack_state req k s, ?_,
    fun xs o ho hx => run_changes_status_only xs s b o ho hx,
    fun x => Rest.act_eq s x⟩
  intro req pizzaId quantity now hc
  obtain ⟨pizza, hp⟩ := postOrder_of_created req pizzaId quantity a now s hc
  rw [hp]
  refine ⟨Orders.get_set_other _ _ _ _ hba, _, rfl, rfl, rfl, rfl, rfl,
    Orders.get_set_self _ _ _, fun hn => ?_, fun hy => ?_⟩
  · have hg : s.orders.get a = none := by
      rw [Orders.has_eq_isSome] at hn
      simpa using hn
    exact Orders.set_of_missing _ _ _ hg
  · rw [Orders.has_eq_isSome] at hy
    cases hg : s.orders.get a with
    | none => rw [hg] at hy; cases hy
    | some o => exact Orders.keys_set_of_present _ _ _ o hg

theorem other_orders_untouched_witness :
    ("o1" ≠ "o2" ∧ "o3" ≠ "o1" ∧
      (postOrder sampleReq (.num 1) (.num 2) "o3" 9 twoOrders).1.status = 201) ∧
    ((deleteCancel sampleReq "o1" twoOrders).2.orders.get "o2" = twoOrders.orders.get "o2" ∧
      (deleteCancel sampleReq "o1" twoOrders).2.orders.keys = twoOrders.orders.keys ∧
      (deleteCancel sampleReq "o1" twoOrders).2.timers = twoOrders.timers) ∧
    ((Hateoas.progress twoOrders.orders "o1" "preparing").get "o2" = twoOrders.orders.get "o2" ∧
      (Hateoas.progress twoOrders.orders "o1" "preparing").keys = twoOrders.orders.keys ∧
      Rest.progress twoOrders.orders "o1" "preparing" =
        Hateoas.progress twoOrders.orders "o1" "preparing") ∧
    (postOrder sampleReq (.num 1) (.num 2) "o3" 9 twoOrders).2.orders.get "o1" =
      twoOrders.orders.get "o1" ∧
    (postOrder sampleReq (.num 1) (.num 2) "o3" 9 twoOrders).2.orders.keys =
      ["o1", "o2", "o3"] ∧
    (∃ st, ([Action.request sampleReq (.cancel "o2"), .fire ⟨30000, "o2", "ready"⟩,
          .request sampleReq (.create (.num 1) (.num 2) "o3" 9)].foldl
        Hateoas.act twoOrders).orders.get "o2" =
      some { orderId := "o2", pizzaId := .num 2, pizzaName := "Pepperoni",
             quantity := .num 1, status := st, createdAt := 5 }) :=
  ⟨⟨by decide, by decide, by decide⟩,
   (other_orders_untouched twoOrders "o1" "o2" (by decide)).1 sampleReq,
   (other_orders_untouched twoOrders "o1" "o2" (by decide)).2.1 "preparing",
   ((other_orders_untouched twoOrders "o3" "o1" (by decide)).2.2.2.1 sampleReq (.num 1) (.num 2) 9
      (by decide)).1,
   by decide,
   (other_orders_untouched twoOrders "o1" "o2" (by decide)).2.2.2.2.1
     [Action.request sampleReq (.cancel "o2"), .fire ⟨30000, "o2", "ready"⟩,
      .request sampleReq (.create (.num 1) (.num 2) "o3" 9)]
     { orderId := "o2", pizzaId := .num 2, pizzaName := "Pepperoni",
       quantity := .num 1, status := "baking", createdAt := 5 } (by decide) (by decide)⟩

open Loader

/-- C22 fails on the code when the call settles before the animation frame: starting
from the hidden loader, if `apiCall` settles first, `hide()` finds `isVisible` still
false and does nothing, and the frame callback then shows the loader for good
(`isVisible` true, class `active` set, overflow `hidden`, no callback left to run). If
the frame runs first the loader ends hidden with overflow restored. In both cases the
promise of `wrapApiCall` settles as `apiCall` does. -/
theorem loader_stays_shown_if_call_settles_first (theme : String) (message : Option String) :
    ((afterWrapApiCall initial theme message [.settle, .frame]).isVisible = true ∧
      (afterWrapApiCall initial theme message [.settle, .frame]).active = true ∧
      (afterWrapApiCall initial theme message [.settle, .frame]).overflow = "hidden" ∧
      (afterWrapApiCall initial theme message [.settle, .frame]).frames = 0) ∧
    ((afterWrapApiCall initial theme message [.frame, .settle]).isVisible = false ∧
      (afterWrapApiCall initial theme message [.frame, .settle]).active = false ∧
      (afterWrapApiCall initial theme message [.frame, .settle]).overflow = "" ∧
      (afterWrapApiCall initial theme message [.frame, .settle]).frames = 0) ∧
    (∀ (ε α : Type) (apiCall : Except ε α), wrapApiCall apiCall = apiCall) := by
  refine ⟨?_, ?_, fun ε α apiCall => ?_⟩
  · simp [afterWrapApiCall, showLoader, initial, step, hide, frameCallback]
  · simp [afterWrapApiCall, showLoader, initial, step, hide, frameCallback]
  · cases apiCall <;> rfl

end PizzaDemo
